import Mathlib

/-!
Verification of the autoexpense receipt-extraction engine
(`backend/app/services/parser.py`, `backend/app/utils/{money,candidates,scoring}.py`)
against its natural-language specification.

Texts are shallowly embedded as `List Char` (the OCR corpora are ASCII).
Python `Decimal` values are embedded as `ℚ`; Python `re` character classes
(`\s`, `\d`, `[A-Za-z]`, `\w`) are embedded at their ASCII meaning, which is
exact on the byte-level receipt text this engine consumes.
-/

set_option maxRecDepth 4000

unseal Rat.mul Rat.inv Rat.add Rat.sub Rat.ofScientific

namespace AutoExpense

/-- Texts and match payloads: a Python `str` as its character list. -/
abbrev Str := List Char

/-- Python `\s` (ASCII part): space, tab, newline, vertical tab, form feed,
carriage return. -/
def isWs (c : Char) : Bool :=
  c = ' ' || (9 ≤ c.toNat && c.toNat ≤ 13)

/-- Python `[A-Za-z]`. -/
def isAsciiAlpha (c : Char) : Bool :=
  ('A' ≤ c && c ≤ 'Z') || ('a' ≤ c && c ≤ 'z')

/-- Python `\d` (ASCII part). -/
def isAsciiDigit (c : Char) : Bool :=
  '0' ≤ c && c ≤ '9'

/-- Python `\w` (ASCII part): letters, digits, underscore. -/
def isWordChar (c : Char) : Bool :=
  isAsciiAlpha c || isAsciiDigit c || c = '_'

/-- ASCII lower-casing of one character (Python `str.lower` on ASCII). -/
def lowerc (c : Char) : Char :=
  if 'A' ≤ c ∧ c ≤ 'Z' then Char.ofNat (c.toNat + 32) else c

/-- ASCII upper-casing of one character (Python `str.upper` on ASCII). -/
def upperc (c : Char) : Char :=
  if 'a' ≤ c ∧ c ≤ 'z' then Char.ofNat (c.toNat - 32) else c

/-- Python `s.lower()`. -/
def lowerL (s : Str) : Str := s.map lowerc

/-- Python `s.upper()`. -/
def upperL (s : Str) : Str := s.map upperc

/-- Python slicing `s[a:b]` for clamped nonnegative bounds. -/
def slice (s : Str) (a b : Nat) : Str := (s.drop a).take (b - a)

/-- Python `pat in s` (substring containment). -/
def isSubstr (pat : Str) : Str → Bool
  | [] => pat.isEmpty
  | c :: rest => pat.isPrefixOf (c :: rest) || isSubstr pat rest

/-- Index of the first occurrence of `pat` in `s` (Python `s.find`,
with `none` for `-1`). -/
def findSub (pat : Str) : Str → Option Nat
  | [] => if pat.isEmpty then some 0 else none
  | c :: rest =>
    if pat.isPrefixOf (c :: rest) then some 0
    else (findSub pat rest).map (· + 1)

/-- Index of the last occurrence of `pat` in `s` (Python `s.rfind`,
with `none` for `-1`). -/
def rfindSub (pat : Str) (s : Str) : Option Nat :=
  match s with
  | [] => if pat.isEmpty then some 0 else none
  | c :: rest =>
    match rfindSub pat rest with
    | some i => some (i + 1)
    | none => if pat.isPrefixOf (c :: rest) then some 0 else none

/-- Fuel-driven scanner for `countSub`; the fuel bounds the number of steps
and is always at least the length of the remaining text. -/
def countSubGo (pat : Str) : Nat → Str → Nat
  | _, [] => 0
  | 0, _ => 0
  | fuel + 1, c :: rest =>
    if pat.isPrefixOf (c :: rest) then
      1 + countSubGo pat fuel (rest.drop (pat.length - 1))
    else
      countSubGo pat fuel rest

/-- Python `s.count(pat)` for a non-empty `pat`: number of non-overlapping
occurrences, scanning left to right. -/
def countSub (pat s : Str) : Nat :=
  countSubGo pat s.length s

/-- Python `s.strip()` restricted to whitespace. -/
def trimL (s : Str) : Str :=
  ((s.dropWhile (isWs ·)).reverse.dropWhile (isWs ·)).reverse

/-- Python `s.startswith(p)`. -/
def startsWithL (p s : Str) : Bool := p.isPrefixOf s

/-- Python `s.endswith(p)`. -/
def endsWithL (p s : Str) : Bool := p.isSuffixOf s

/-! ## `app/utils/money.py` -/

theorem dropWhile_length_le {α : Type} (p : α → Bool) (l : List α) :
    (l.dropWhile p).length ≤ l.length := by
  induction l with
  | nil => simp [List.dropWhile]
  | cons c rest ih =>
    simp only [List.dropWhile]
    split
    · exact Nat.le_trans ih (Nat.le_succ _)
    · simp

/-- Numeric value of a digit list, most significant first. -/
def digitsVal (ds : Str) : Nat :=
  ds.foldl (fun acc c => acc * 10 + (c.toNat - '0'.toNat)) 0

/-- The unsigned part of the `Decimal` literal grammar: digits, optional
fraction, optional exponent.  Always nonnegative when it succeeds. -/
def pyDecimalMag (t1 : Str) : Option ℚ :=
  let intPart := t1.takeWhile (isAsciiDigit ·)
  let t2 := t1.dropWhile (isAsciiDigit ·)
  let fracPart := if t2.head? = some '.' then t2.tail.takeWhile (isAsciiDigit ·) else []
  let t3 := if t2.head? = some '.' then t2.tail.dropWhile (isAsciiDigit ·) else t2
  if intPart.isEmpty ∧ fracPart.isEmpty then none
  else
    let mag : ℚ := (digitsVal (intPart ++ fracPart) : ℚ) / ((10 : ℚ) ^ fracPart.length)
    if t3.isEmpty then some mag
    else if t3.head? = some 'e' ∨ t3.head? = some 'E' then
      let r := t3.tail
      let esgn : Bool := r.head? = some '-'
      let r1 := if r.head? = some '-' ∨ r.head? = some '+' then r.tail else r
      let eds := r1.takeWhile (isAsciiDigit ·)
      if eds.isEmpty ∨ ¬ (r1.dropWhile (isAsciiDigit ·)).isEmpty then none
      else
        let ev := digitsVal eds
        some (mag * (if esgn then ((10 : ℚ) ^ ev)⁻¹ else (10 : ℚ) ^ ev))
    else none

/--
Python `decimal.Decimal(str)` constructor on its numeric-literal core:
optional surrounding whitespace, optional sign, an integer part and/or a
fractional part (at least one digit overall), optional decimal exponent.
The special values `NaN`/`Infinity` are not modelled (they are treated as a
failed parse); the strings this program feeds to `Decimal` are built from
digits, `.` and `,` only, so the special spellings are unreachable.
-/
def pyDecimal (s : Str) : Option ℚ :=
  let t := trimL s
  let neg : Bool := t.head? = some '-'
  let t1 := if t.head? = some '-' ∨ t.head? = some '+' then t.tail else t
  (pyDecimalMag t1).map (fun m => if neg then -m else m)

/-- The source's `MoneyFormat` enum (`AUTO` is resolved before parsing). -/
inductive MoneyFormat where
  | us
  | european
  deriving DecidableEq, Repr

/--
The substitution `re.sub(r'[$£€¥]\s*|[A-Z]{3}\s*', '', s, flags=IGNORECASE)`
from `parse_money`: scanning left to right, a currency symbol or any run of
exactly three ASCII letters is deleted together with the whitespace that
follows it.
-/
def currencyStripGo : Nat → Str → Str
  | _, [] => []
  | 0, s => s
  | fuel + 1, c :: rest =>
    if c = '$' ∨ c = '£' ∨ c = '€' ∨ c = '¥' then
      currencyStripGo fuel (rest.dropWhile (isWs ·))
    else if isAsciiAlpha c ∧ (rest.take 2).length = 2 ∧ (rest.take 2).all (isAsciiAlpha ·) then
      currencyStripGo fuel ((rest.drop 2).dropWhile (isWs ·))
    else
      c :: currencyStripGo fuel rest

def currencyStrip (s : Str) : Str :=
  currencyStripGo s.length s

/-- `_detect_money_format` from `money.py`. -/
def detectMoneyFormat (s : Str) : MoneyFormat :=
  if endsWithDigitsComma s then .european
  else if (' ' ∈ s) ∧ ('.' ∉ s) then .european
  else if ('.' ∈ s) ∧ (',' ∈ s) ∧ dotBeforeLastComma s then .european
  else .us
where
  /-- `re.search(r',\d{2}$', s)`: the string ends in a comma and two digits
  (after `strip` there is no trailing newline, so `$` is the end). -/
  endsWithDigitsComma (s : Str) : Bool :=
    match s.reverse with
    | d2 :: d1 :: ',' :: _ => isAsciiDigit d1 && isAsciiDigit d2
    | _ => false
  /-- `s.index('.') < s.rindex(',')`. -/
  dotBeforeLastComma (s : Str) : Bool :=
    match findSub ['.'] s, rfindSub [','] s with
    | some i, some j => i < j
    | _, _ => false

/-- `_parse_us_format`: drop commas and spaces, then `Decimal`. -/
def parseUsFormat (s : Str) : Option ℚ :=
  pyDecimal ((s.filter (· ≠ ',')).filter (· ≠ ' '))

/-- `_parse_european_format`: drop dots and spaces, turn commas into dots,
then `Decimal`. -/
def parseEuropeanFormat (s : Str) : Option ℚ :=
  pyDecimal (((s.filter (· ≠ '.')).filter (· ≠ ' ')).map
    (fun c => if c = ',' then '.' else c))

/-- The parenthesised-negative block of `parse_money`: rejects `(...)` when
negatives are not allowed, otherwise records the sign and strips the parens. -/
def parenStage (allow_negative : Bool) (cleaned : Str) : Option (Bool × Str) :=
  if startsWithL ['('] cleaned = true ∧ endsWithL [')'] cleaned = true then
    if allow_negative then some (true, trimL (slice cleaned 1 (cleaned.length - 1)))
    else none
  else some (false, cleaned)

/-- The minus-sign block of `parse_money`: rejects a *leading* minus when
negatives are not allowed, otherwise records the sign and strips it. -/
def minusStage (allow_negative : Bool) (p : Bool × Str) : Option (Bool × Str) :=
  if startsWithL ['-'] p.2 = true then
    if allow_negative then some (true, trimL (p.2.drop 1))
    else none
  else some p

/-- The tail of `parse_money`: currency stripping, format detection,
locale-specific parsing, sign application and the 1,000,000 sanity bound. -/
def moneyCore (format_hint : Option MoneyFormat) (is_negative : Bool) (c2 : Str) :
    Option ℚ :=
  let c3 := trimL (currencyStrip c2)
  if c3.isEmpty then none
  else
    let parsed :=
      match format_hint.getD (detectMoneyFormat c3) with
      | .european => parseEuropeanFormat c3
      | .us => parseUsFormat c3
    match parsed with
    | none => none
    | some r =>
      let r' := if is_negative then -r else r
      if 1000000 < |r'| then none else some r'

/-- `parse_money` from `app/utils/money.py`. -/
def parseMoney (amount_str : Str) (format_hint : Option MoneyFormat)
    (allow_negative : Bool) : Option ℚ :=
  if amount_str.isEmpty then none
  else
    match parenStage allow_negative (trimL amount_str) with
    | none => none
    | some p =>
      match minusStage allow_negative p with
      | none => none
      | some (is_negative, c2) => moneyCore format_hint is_negative c2

theorem mem_dropWhile {α : Type} {p : α → Bool} {l : List α} {c : α}
    (h : c ∈ l.dropWhile p) : c ∈ l := by
  induction l with
  | nil => simp [List.dropWhile] at h
  | cons a rest ih =>
    simp only [List.dropWhile] at h
    revert h
    split
    · intro h; exact List.mem_cons_of_mem a (ih h)
    · intro h; exact h

theorem mem_trimL {s : Str} {c : Char} (h : c ∈ trimL s) : c ∈ s := by
  unfold trimL at h
  rw [List.mem_reverse] at h
  have h1 := mem_dropWhile h
  rw [List.mem_reverse] at h1
  exact mem_dropWhile h1

theorem mem_currencyStripGo {fuel : Nat} {s : Str} {c : Char}
    (h : c ∈ currencyStripGo fuel s) : c ∈ s := by
  induction fuel generalizing s with
  | zero =>
    cases s with
    | nil => simp [currencyStripGo] at h
    | cons a rest => exact h
  | succ fuel ih =>
    cases s with
    | nil => simp [currencyStripGo] at h
    | cons a rest =>
      rw [currencyStripGo] at h
      revert h
      split
      · intro h; exact List.mem_cons_of_mem a (mem_dropWhile (ih h))
      · split
        · intro h
          exact List.mem_cons_of_mem a (List.mem_of_mem_drop (mem_dropWhile (ih h)))
        · intro h
          rcases List.mem_cons.mp h with h1 | h1
          · simp [h1]
          · exact List.mem_cons_of_mem a (ih h1)

theorem mem_currencyStrip {s : Str} {c : Char} (h : c ∈ currencyStrip s) : c ∈ s :=
  mem_currencyStripGo h

theorem pyDecimalMag_nonneg {t1 : Str} {m : ℚ}
    (h : pyDecimalMag t1 = some m) : 0 ≤ m := by
  simp only [pyDecimalMag] at h
  revert h
  repeat' split
  all_goals intro h
  all_goals cases h
  all_goals first
    | exact div_nonneg (Nat.cast_nonneg _) (by positivity)
    | exact mul_nonneg (div_nonneg (Nat.cast_nonneg _) (by positivity)) (by positivity)

theorem pyDecimal_nonneg {u : Str} (hm : '-' ∉ u) {r : ℚ}
    (h : pyDecimal u = some r) : 0 ≤ r := by
  have htrim : '-' ∉ trimL u := fun hc => hm (mem_trimL hc)
  have hhead : ¬ (trimL u).head? = some '-' := by
    intro hh
    cases htr : trimL u with
    | nil => rw [htr] at hh; simp at hh
    | cons a rr =>
      rw [htr] at hh
      simp only [List.head?_cons, Option.some_inj] at hh
      exact htrim (htr ▸ (hh ▸ List.mem_cons_self a rr))
  simp only [pyDecimal, decide_eq_false hhead, Bool.false_eq_true, if_false] at h
  rcases hmg : pyDecimalMag (if (trimL u).head? = some '-' ∨ (trimL u).head? = some '+'
      then (trimL u).tail else trimL u) with _ | m
  · rw [hmg] at h; exact absurd h (by simp)
  · rw [hmg] at h
    simp at h
    rw [← h]
    exact pyDecimalMag_nonneg hmg

theorem moneyParsed_nonneg {c3 : Str} (h3 : '-' ∉ c3) (fmt : MoneyFormat) {r0 : ℚ}
    (h : (match fmt with
          | MoneyFormat.european => parseEuropeanFormat c3
          | MoneyFormat.us => parseUsFormat c3) = some r0) : 0 ≤ r0 := by
  cases fmt with
  | european =>
    simp only [] at h
    unfold parseEuropeanFormat at h
    apply pyDecimal_nonneg _ h
    intro hmem
    rcases List.mem_map.mp hmem with ⟨c, hcmem, hcval⟩
    have hcm : c = '-' := by
      by_cases hcomma : c = ','
      · rw [hcomma] at hcval; exact absurd hcval (by decide)
      · simpa [hcomma] using hcval
    rw [hcm] at hcmem
    exact h3 (List.mem_of_mem_filter (List.mem_of_mem_filter hcmem))
  | us =>
    simp only [] at h
    unfold parseUsFormat at h
    apply pyDecimal_nonneg _ h
    intro hmem
    exact h3 (List.mem_of_mem_filter (List.mem_of_mem_filter hmem))

theorem moneyCore_nonneg {c2 : Str} (hm : '-' ∉ c2) {hint : Option MoneyFormat}
    {r : ℚ} (h : moneyCore hint false c2 = some r) : 0 ≤ r := by
  have hc3 : '-' ∉ trimL (currencyStrip c2) := by
    intro hc
    exact hm (mem_currencyStrip (mem_trimL hc))
  simp only [moneyCore] at h
  by_cases hemp : (trimL (currencyStrip c2)).isEmpty = true
  · rw [if_pos hemp] at h; cases h
  · rw [if_neg hemp] at h
    rcases hp : (match hint.getD (detectMoneyFormat (trimL (currencyStrip c2))) with
        | MoneyFormat.european => parseEuropeanFormat (trimL (currencyStrip c2))
        | MoneyFormat.us => parseUsFormat (trimL (currencyStrip c2))) with _ | r0
    · rw [hp] at h; cases h
    · rw [hp] at h
      have hr0 : (0:ℚ) ≤ r0 := moneyParsed_nonneg hc3 _ hp
      simp only [Bool.false_eq_true, if_false] at h
      by_cases hs : (1000000:ℚ) < |r0|
      · rw [if_pos hs] at h; cases h
      · rw [if_neg hs] at h; cases h; exact hr0

/--
C10 (amended): with `allow_negative=False`, `parse_money` returns `None` for
parenthesised and for minus-prefixed inputs, and returns a nonnegative value
for any input containing no minus sign at all.  (As the counterexample shows,
a minus sign placed after a currency symbol, e.g. `"$-12.34"`, escapes the
guard and produces a negative result.)
-/
theorem C10_parse_money_negative_guard (s : Str) (hint : Option MoneyFormat) :
    (startsWithL ['('] (trimL s) = true ∧ endsWithL [')'] (trimL s) = true →
      parseMoney s hint false = none)
  ∧ (startsWithL ['-'] (trimL s) = true → parseMoney s hint false = none)
  ∧ ('-' ∉ s → ∀ r : ℚ, parseMoney s hint false = some r → 0 ≤ r) := by
  have hparnone : startsWithL ['('] (trimL s) = true ∧ endsWithL [')'] (trimL s) = true →
      parenStage false (trimL s) = none := by
    intro hp
    unfold parenStage
    rw [if_pos hp]
    simp
  have hparid : ¬ (startsWithL ['('] (trimL s) = true ∧ endsWithL [')'] (trimL s) = true) →
      parenStage false (trimL s) = some (false, trimL s) := by
    intro hp
    unfold parenStage
    rw [if_neg hp]
  have hminnone : startsWithL ['-'] (trimL s) = true →
      minusStage false (false, trimL s) = none := by
    intro hms
    unfold minusStage
    rw [if_pos hms]
    simp
  have hminid : ¬ startsWithL ['-'] (trimL s) = true →
      minusStage false (false, trimL s) = some (false, trimL s) := by
    intro hms
    unfold minusStage
    rw [if_neg hms]
  refine ⟨?_, ?_, ?_⟩
  · intro hpar
    unfold parseMoney
    split
    · rfl
    · simp only [hparnone hpar]
  · intro hminus
    unfold parseMoney
    split
    · rfl
    · by_cases hp : startsWithL ['('] (trimL s) = true ∧ endsWithL [')'] (trimL s) = true
      · simp only [hparnone hp]
      · simp only [hparid hp, hminnone hminus]
  · intro hm r h
    have hmt : '-' ∉ trimL s := fun hc => hm (mem_trimL hc)
    unfold parseMoney at h
    revert h
    split
    · intro h; exact absurd h (by simp)
    · by_cases hp : startsWithL ['('] (trimL s) = true ∧ endsWithL [')'] (trimL s) = true
      · simp only [hparnone hp]
        intro h; exact absurd h (by simp)
      · by_cases hms : startsWithL ['-'] (trimL s) = true
        · simp only [hparid hp, hminnone hms]
          intro h; exact absurd h (by simp)
        · simp only [hparid hp, hminid hms]
          intro h
          exact moneyCore_nonneg hmt h

/--
C10 counterexample: the claim says that with `allow_negative=False` every
input whose parsed value would be negative yields `None` — in particular
`"$-12.34"`.  In the code the minus check runs before currency symbols are
stripped, so `"$-12.34"` slips through and `parse_money` returns the
*negative* value `Decimal('-12.34')`.
-/
theorem C10_parse_money_counterexample :
    parseMoney ("$-12.34".toList) none false = some (-617/50) ∧ (-617/50 : ℚ) < 0 := by
  constructor
  · decide
  · decide

/-- Witness for `C10_parse_money_negative_guard` at concrete inputs. -/
theorem C10_parse_money_witness :
    parseMoney ("-5".toList) none false = none ∧
    parseMoney ("(5)".toList) none false = none ∧
    (0 : ℚ) ≤ 617/50 :=
  ⟨(C10_parse_money_negative_guard ("-5".toList) none).2.1 (by decide),
   (C10_parse_money_negative_guard ("(5)".toList) none).1 (by decide),
   (C10_parse_money_negative_guard ("$12.34".toList) none).2.2 (by decide) (617/50) (by decide)⟩

/-! ## `ReceiptParser._requires_review` (`app/services/parser.py`) -/

/-- The `debug['confidence_per_field']` dict: per-field confidence, present
exactly for the fields whose extraction succeeded. -/
structure ConfidencePerField where
  vendor : Option ℚ
  amount : Option ℚ
  date : Option ℚ
  currency : Option ℚ
  tax : Option ℚ
  deriving DecidableEq, Repr

/-- The `debug['amount_validation']` record written by
`_validate_amount_consistency` (numeric fields are stored as strings in the
source; they are modelled by their values). -/
structure AmountValidation where
  subtotal : ℚ
  tax : ℚ
  calculated_total : ℚ
  extracted_total : ℚ
  tolerance : ℚ
  is_consistent : Bool
  deriving DecidableEq, Repr

/-- The `debug` dict of a parse result (the parts the review gate reads). -/
structure DebugInfo where
  confidence_per_field : ConfidencePerField
  warnings : List Str
  amount_validation : Option AmountValidation
  deriving DecidableEq, Repr

/-- The result dict built by `parse` (the parts the review gate reads). -/
structure ParseOutcome where
  vendor : Option Str
  amount : Option ℚ
  currency : Option Str
  date : Option Str
  tax : Option ℚ
  confidence : ℚ
  debug : DebugInfo
  deriving DecidableEq, Repr

/-- `ReceiptParser._requires_review(result, debug)`. -/
def requiresReview (result : ParseOutcome) (debug : DebugInfo) : Bool :=
  if result.confidence < 7/10 then true
  else
    let vendor_conf := debug.confidence_per_field.vendor.getD 0
    let amount_conf := debug.confidence_per_field.amount.getD 0
    if vendor_conf < 7/10 ∨ amount_conf < 7/10 then true
    else if result.vendor = none ∨ result.amount = none then true
    else
      match debug.amount_validation with
      | some v => if v.is_consistent = false then true else false
      | none => false

/--
C2: `needs_review` is true iff the overall confidence is below 0.7, or the
vendor or amount per-field confidence is below 0.7, or the vendor or amount
is missing, or the amount-consistency validation failed.  The hypotheses
state the invariant maintained by `parse`: a per-field confidence is recorded
exactly when the field was extracted.
-/
theorem C2_requires_review_iff (result : ParseOutcome) (debug : DebugInfo)
    (hv : debug.confidence_per_field.vendor = none ↔ result.vendor = none)
    (ha : debug.confidence_per_field.amount = none ↔ result.amount = none) :
    requiresReview result debug = true ↔
      (result.confidence < 7/10
        ∨ (∃ cv, debug.confidence_per_field.vendor = some cv ∧ cv < 7/10)
        ∨ (∃ ca, debug.confidence_per_field.amount = some ca ∧ ca < 7/10)
        ∨ result.vendor = none
        ∨ result.amount = none
        ∨ (∃ v, debug.amount_validation = some v ∧ v.is_consistent = false)) := by
  unfold requiresReview
  by_cases h1 : result.confidence < 7/10
  · simp [h1]
  · rw [if_neg h1]
    rcases hcv : debug.confidence_per_field.vendor with _ | cv
    · have hvn : result.vendor = none := hv.mp hcv
      simp [hcv, hvn, h1]
    · rcases hca : debug.confidence_per_field.amount with _ | ca
      · have han : result.amount = none := ha.mp hca
        simp [hcv, hca, han, h1]
      · have hvs : ¬ result.vendor = none := fun hn => by
          have := hv.mpr hn
          rw [hcv] at this
          exact Option.noConfusion this
        have has : ¬ result.amount = none := fun hn => by
          have := ha.mpr hn
          rw [hca] at this
          exact Option.noConfusion this
        by_cases h2 : cv < 7/10 ∨ ca < 7/10
        · simp only [hcv, hca, Option.getD_some]
          rw [if_pos h2]
          simp only [true_iff]
          rcases h2 with h2 | h2
          · exact Or.inr (Or.inl ⟨cv, rfl, h2⟩)
          · exact Or.inr (Or.inr (Or.inl ⟨ca, rfl, h2⟩))
        · simp only [hcv, hca, Option.getD_some]
          rw [if_neg h2]
          rw [if_neg (by
            intro hor
            rcases hor with hn | hn
            · exact hvs hn
            · exact has hn)]
          push_neg at h2
          constructor
          · intro hval
            revert hval
            rcases hval2 : debug.amount_validation with _ | v
            · intro hval; exact absurd hval (by simp)
            · by_cases hcons : v.is_consistent = false
              · intro _
                exact Or.inr (Or.inr (Or.inr (Or.inr (Or.inr ⟨v, rfl, hcons⟩))))
              · intro hval
                simp [hcons] at hval
          · intro hor
            rcases hor with hh | hh | hh | hh | hh | hh
            · exact absurd hh h1
            · rcases hh with ⟨cv', hcv', hlt⟩
              rw [Option.some_inj] at hcv'
              rw [← hcv'] at hlt
              exact absurd hlt (not_lt.mpr h2.1)
            · rcases hh with ⟨ca', hca', hlt⟩
              rw [Option.some_inj] at hca'
              rw [← hca'] at hlt
              exact absurd hlt (not_lt.mpr h2.2)
            · exact absurd hh hvs
            · exact absurd hh has
            · rcases hh with ⟨v, hval2, hcons⟩
              simp [hval2, hcons]

/-- Witness for `C2_requires_review_iff` at a concrete low-confidence result. -/
theorem C2_requires_review_witness :
    requiresReview
      { vendor := some ("Uber".toList), amount := some 10, currency := none,
        date := none, tax := none, confidence := 1/2,
        debug := { confidence_per_field :=
                     { vendor := some (9/10), amount := some (9/10),
                       date := none, currency := none, tax := none },
                   warnings := [], amount_validation := none } }
      { confidence_per_field :=
          { vendor := some (9/10), amount := some (9/10),
            date := none, currency := none, tax := none },
        warnings := [], amount_validation := none } = true :=
  (C2_requires_review_iff _ _ (by decide) (by decide)).mpr (Or.inl (by norm_num))

/-! ## `app/utils/candidates.py` -/

/-- `AmountCandidate` from `candidates.py` (`has_strong_kw` is the source's
strong-prefix flag). -/
structure AmountCandidate where
  value : ℚ
  pattern_name : Str
  match_span : ℕ × ℕ
  priority : ℕ
  raw_text : Str
  proximity_to_keywords : ℕ
  has_strong_kw : Bool
  in_subtotal_context : Bool
  in_blacklist_context : Bool
  deriving DecidableEq, Repr

/-- `CurrencyCandidate` from `candidates.py`. -/
structure CurrencyCandidate where
  value : Str
  pattern_name : Str
  match_span : ℕ × ℕ
  priority : ℕ
  raw_text : Str
  symbol_proximity : ℕ
  is_explicit : Bool
  context_count : ℕ
  deriving DecidableEq, Repr

/-- The `strong_keywords` list of `create_amount_candidate`. -/
def strongKeywords : List Str :=
  ["total", "amount due", "balance due", "grand total", "order total",
   "amount paid"].map String.toList

/-- The `blacklist_terms` list of `create_amount_candidate`. -/
def blacklistTerms : List Str :=
  ["balance", "refund", "discount",
   "liability", "coverage", "insurance", "limit", "maximum", "up to",
   "points", "pts", "miles", "rewards",
   "booking reference", "confirmation", "reference",
   "tax breakdown", "breakdown", "tax %"].map String.toList

/-- The strong-prefix loop of `create_amount_candidate`: the first strong
keyword found in the 15 characters before the match that sits at a line
start and is not part of `tax .../sub...` marks the candidate strong. -/
def strongFromImmediate (immediate : Str) : Bool :=
  go strongKeywords
where
  go : List Str → Bool
    | [] => false
    | kw :: rest =>
      let low := lowerL immediate
      match rfindSub kw low with
      | none => go rest
      | some ks =>
        if ks = 0 ∨ low.get? (ks - 1) = some '\n' then
          if isSubstr ("tax".toList) (low.take ks) then go rest
          else if isSubstr ("sub".toList ++ kw) low then go rest
          else true
        else go rest

/-- The keyword-proximity loop of `create_amount_candidate`, over the
lowered ±100-character context window. -/
def proximityOf (context : Str) (relStart : ℕ) : ℕ :=
  strongKeywords.foldl
    (fun prox kw =>
      match findSub kw context with
      | none => prox
      | some pos =>
        if isSubstr ("tax".toList) (slice context (pos - 10) pos) then prox
        else if isSubstr ("sub".toList ++ kw)
            (slice context (pos - 3) (pos + kw.length + 3)) then prox
        else min prox ((pos : ℤ) - (relStart : ℤ)).natAbs)
    999

/-- `create_amount_candidate` from `candidates.py`. -/
def createAmountCandidate (value : ℚ) (pattern_name : Str) (match_span : ℕ × ℕ)
    (raw_text : Str) (priority : ℕ) (text : Str) : AmountCandidate :=
  let start := match_span.1
  let en := match_span.2
  let context_start := start - 100
  let context_end := min text.length (en + 100)
  let context := lowerL (slice text context_start context_end)
  let pattern_implies_strong :=
    (["total", "amount", "paid", "explicit"].map String.toList).any
      (fun kw => isSubstr kw pattern_name)
  let has_strong :=
    if pattern_implies_strong then true
    else strongFromImmediate (slice text (start - 15) start)
  let proximity := proximityOf context (start - context_start)
  let preceding_30 := lowerL (slice text (start - 30) start)
  let in_subtotal := isSubstr ("subtotal".toList) preceding_30 && ! has_strong
  let in_blacklist := blacklistTerms.any (fun t => isSubstr t context)
  { value := value, pattern_name := pattern_name, match_span := match_span,
    priority := priority, raw_text := raw_text,
    proximity_to_keywords := proximity, has_strong_kw := has_strong,
    in_subtotal_context := in_subtotal, in_blacklist_context := in_blacklist }

/-- `create_currency_candidate` from `candidates.py`. -/
def createCurrencyCandidate (value : Str) (pattern_name : Str)
    (match_span : ℕ × ℕ) (raw_text : Str) (priority : ℕ) (is_explicit : Bool)
    (text : Str) : CurrencyCandidate :=
  { value := value, pattern_name := pattern_name, match_span := match_span,
    priority := priority, raw_text := raw_text,
    symbol_proximity := 999, is_explicit := is_explicit,
    context_count := countSub (lowerL raw_text) (lowerL text) }

/-! ## `app/utils/scoring.py` -/

/--
`math.log10` on the pattern priorities, as used in the priority-derived base
score `1.0 / (1.0 + math.log10(priority))`.  The floating-point logarithm is
modelled by its value rounded to five decimal places on the priorities the
pattern library uses (1–4, and the dataclass default 100); every inequality
proved about scores holds with margins far above this rounding error.
-/
def log10q (p : ℕ) : ℚ :=
  if p ≤ 1 then 0
  else if p = 2 then 30103/100000
  else if p = 3 then 47712/100000
  else if p = 4 then 60206/100000
  else 2

/-- `score_amount_candidate` from `scoring.py` (its `text` argument is not
used by the source body). -/
def scoreAmountCandidate (c : AmountCandidate) (_text : Str) : ℚ :=
  let base := 1 / (1 + log10q c.priority)
  let base := if c.has_strong_kw then base + 3/10 else base
  let base :=
    if c.proximity_to_keywords < 100 then
      base + (2/10) * (1 - (c.proximity_to_keywords : ℚ)/100)
    else base
  let base := if c.in_subtotal_context then base - 4/10 else base
  let base := if c.in_blacklist_context then base - 5/10 else base
  max 0 (min 1 base)

/-- `score_currency_candidate` from `scoring.py`. -/
def scoreCurrencyCandidate (c : CurrencyCandidate) : ℚ :=
  let base : ℚ := if c.is_explicit then 9/10 else 6/10
  let base := base + min (3/10) (((c.context_count : ℚ) - 1) * (5/100))
  let base :=
    if c.symbol_proximity < 10 then
      base + (1/10) * (1 - (c.symbol_proximity : ℚ)/10)
    else base
  max 0 (min 1 base)

/-- Stable descending insertion used to model Python's stable
`list.sort(key=..., reverse=True)`: an element is placed after every earlier
element with a key at least as large. -/
def insertDesc {α : Type} (key : α → ℚ) (x : α) : List α → List α
  | [] => [x]
  | y :: rest => if key x ≤ key y then y :: insertDesc key x rest else x :: y :: rest

/-- Stable sort by descending key (Python `sort(key=..., reverse=True)`). -/
def sortDesc {α : Type} (key : α → ℚ) (l : List α) : List α :=
  l.foldl (fun acc x => insertDesc key x acc) []

/-- The head-plus-floor step shared by the selectors: take the best scored
pair, return its candidate only if its score is at least the 0.3 floor. -/
def selectFromSorted {α : Type} : List (α × ℚ) → Option α
  | [] => none
  | (best, best_score) :: _ => if best_score < 3/10 then none else some best

/-- `select_best_candidate` from `scoring.py`: score, sort descending, take
the head, return it only if its score is at least the 0.3 floor. -/
def selectBestCandidate {α : Type} (candidates : List α) (score_func : α → ℚ) :
    Option α :=
  selectFromSorted (sortDesc (fun p => p.2) (candidates.map (fun c => (c, score_func c))))

/-- `select_top_candidates` from `scoring.py`. -/
def selectTopCandidates {α : Type} (candidates : List α) (score_func : α → ℚ)
    (top_n : ℕ) : List (α × ℚ) :=
  (sortDesc (fun p => p.2) (candidates.map (fun c => (c, score_func c)))).take top_n

/-- `select_best_amount` from `scoring.py` (same score-sort-threshold body,
specialised to amount candidates). -/
def selectBestAmount (candidates : List AmountCandidate) (text : Str) :
    Option AmountCandidate :=
  selectFromSorted (sortDesc (fun p => p.2)
    (candidates.map (fun c => (c, scoreAmountCandidate c text))))

/-- `select_best_currency` from `scoring.py`. -/
def selectBestCurrency (candidates : List CurrencyCandidate) :
    Option CurrencyCandidate :=
  selectBestCandidate candidates scoreCurrencyCandidate

theorem mem_insertDesc {α : Type} (key : α → ℚ) (x y : α) (l : List α) :
    y ∈ insertDesc key x l ↔ y = x ∨ y ∈ l := by
  induction l with
  | nil => simp [insertDesc]
  | cons a rest ih =>
    rw [insertDesc]
    split
    · simp only [List.mem_cons, ih]
      tauto
    · simp only [List.mem_cons]

theorem pairwise_insertDesc {α : Type} (key : α → ℚ) (x : α) {l : List α}
    (h : l.Pairwise (fun a b => key b ≤ key a)) :
    (insertDesc key x l).Pairwise (fun a b => key b ≤ key a) := by
  induction l with
  | nil => simp [insertDesc]
  | cons a rest ih =>
    rw [insertDesc]
    rcases List.pairwise_cons.mp h with ⟨ha, hrest⟩
    split
    · rename_i hle
      refine List.pairwise_cons.mpr ⟨?_, ih hrest⟩
      intro b hb
      rcases (mem_insertDesc key x b rest).mp hb with rfl | hbr
      · exact hle
      · exact ha b hbr
    · rename_i hgt
      push_neg at hgt
      refine List.pairwise_cons.mpr ⟨?_, h⟩
      intro b hb
      rcases List.mem_cons.mp hb with rfl | hbr
      · exact le_of_lt hgt
      · exact le_trans (ha b hbr) (le_of_lt hgt)

theorem sortDesc_foldl_spec {α : Type} (key : α → ℚ) :
    ∀ (l acc : List α), acc.Pairwise (fun a b => key b ≤ key a) →
      (l.foldl (fun acc x => insertDesc key x acc) acc).Pairwise
        (fun a b => key b ≤ key a)
      ∧ ∀ y, y ∈ l.foldl (fun acc x => insertDesc key x acc) acc ↔
          y ∈ l ∨ y ∈ acc := by
  intro l
  induction l with
  | nil =>
    intro acc hacc
    exact ⟨hacc, by simp⟩
  | cons a rest ih =>
    intro acc hacc
    have h1 := ih (insertDesc key a acc) (pairwise_insertDesc key a hacc)
    refine ⟨h1.1, ?_⟩
    intro y
    rw [List.foldl_cons, h1.2 y, mem_insertDesc]
    simp only [List.mem_cons]
    tauto

theorem sortDesc_pairwise {α : Type} (key : α → ℚ) (l : List α) :
    (sortDesc key l).Pairwise (fun a b => key b ≤ key a) :=
  (sortDesc_foldl_spec key l [] (by simp)).1

theorem mem_sortDesc {α : Type} (key : α → ℚ) (l : List α) (y : α) :
    y ∈ sortDesc key l ↔ y ∈ l := by
  rw [sortDesc, (sortDesc_foldl_spec key l [] (by simp)).2 y]
  simp

theorem sortDesc_head_spec {α : Type} (key : α → ℚ) (l : List α) {b : α}
    {rest : List α} (h : sortDesc key l = b :: rest) :
    b ∈ l ∧ ∀ c ∈ l, key c ≤ key b := by
  constructor
  · rw [← mem_sortDesc key l, h]
    simp
  · intro c hc
    rw [← mem_sortDesc key l, h] at hc
    rcases List.mem_cons.mp hc with rfl | hcr
    · exact le_refl _
    · have hp := sortDesc_pairwise key l
      rw [h] at hp
      exact (List.pairwise_cons.mp hp).1 c hcr

theorem sortDesc_ne_nil {α : Type} (key : α → ℚ) {l : List α} (hne : l ≠ []) :
    sortDesc key l ≠ [] := by
  intro hs
  rcases List.exists_mem_of_ne_nil l hne with ⟨x, hx⟩
  have := (mem_sortDesc key l x).mpr hx
  rw [hs] at this
  exact List.not_mem_nil x this

theorem selectBody_spec {α : Type} (f : α → ℚ) (l : List α) :
    ((∀ c ∈ l, f c < 3/10) →
      selectFromSorted (sortDesc (fun p => p.2) (l.map (fun c => (c, f c)))) = (none : Option α))
  ∧ ((∃ c ∈ l, 3/10 ≤ f c) →
      ∃ b ∈ l,
        selectFromSorted (sortDesc (fun p => p.2) (l.map (fun c => (c, f c)))) = some b
        ∧ ∀ c ∈ l, f c ≤ f b) := by
  constructor
  · intro hall
    rcases hsort : sortDesc (fun p : α × ℚ => p.2) (l.map (fun c => (c, f c))) with _ | ⟨⟨b, s⟩, rest⟩
    · rfl
    · have hmem := (sortDesc_head_spec (fun p : α × ℚ => p.2) _ hsort).1
      rcases List.mem_map.mp hmem with ⟨c, hcl, hceq⟩
      have hb : c = b := congrArg Prod.fst hceq
      have hs : f c = s := congrArg Prod.snd hceq
      have : s < 3/10 := hs ▸ hall c hcl
      simp [selectFromSorted, this]
  · intro hex
    rcases hex with ⟨c0, hc0l, hc0⟩
    have hnil : l ≠ [] := fun hl => by simp [hl] at hc0l
    have hmne : l.map (fun c => (c, f c)) ≠ [] := by
      simp [hnil]
    rcases hsort : sortDesc (fun p : α × ℚ => p.2) (l.map (fun c => (c, f c))) with _ | ⟨⟨b, s⟩, rest⟩
    · exact absurd hsort (sortDesc_ne_nil _ hmne)
    · have hspec := sortDesc_head_spec (fun p : α × ℚ => p.2) _ hsort
      rcases List.mem_map.mp hspec.1 with ⟨c, hcl, hceq⟩
      have hb : c = b := congrArg Prod.fst hceq
      have hs : f c = s := congrArg Prod.snd hceq
      have hdom : ∀ d ∈ l, f d ≤ s := by
        intro d hd
        have : (d, f d) ∈ l.map (fun c => (c, f c)) := List.mem_map.mpr ⟨d, hd, rfl⟩
        exact hspec.2 _ this
      have hsge : 3/10 ≤ s := le_trans hc0 (hdom c0 hc0l)
      refine ⟨b, hb ▸ hcl, ?_, ?_⟩
      · simp [selectFromSorted, not_lt.mpr hsge]
      · intro d hd
        have := hdom d hd
        rw [← hs, hb] at this
        exact this

/--
C9: the generic best-candidate selector (and its amount specialisation)
returns `None` exactly when the highest score is below the fixed 0.3
acceptance floor, and otherwise returns a candidate attaining the maximal
score.
-/
theorem C9_select_best_floor {α : Type} (score_func : α → ℚ)
    (candidates : List α) (amount_candidates : List AmountCandidate) (text : Str) :
    ((∀ c ∈ candidates, score_func c < 3/10) →
      selectBestCandidate candidates score_func = none)
  ∧ ((∃ c ∈ candidates, 3/10 ≤ score_func c) →
      ∃ b ∈ candidates, selectBestCandidate candidates score_func = some b ∧
        ∀ c ∈ candidates, score_func c ≤ score_func b)
  ∧ ((∀ c ∈ amount_candidates, scoreAmountCandidate c text < 3/10) →
      selectBestAmount amount_candidates text = none)
  ∧ ((∃ c ∈ amount_candidates, 3/10 ≤ scoreAmountCandidate c text) →
      ∃ b ∈ amount_candidates, selectBestAmount amount_candidates text = some b ∧
        ∀ c ∈ amount_candidates,
          scoreAmountCandidate c text ≤ scoreAmountCandidate b text) := by
  refine ⟨?_, ?_, ?_, ?_⟩
  · intro hall
    unfold selectBestCandidate
    exact (selectBody_spec score_func candidates).1 hall
  · intro hex
    unfold selectBestCandidate
    exact (selectBody_spec score_func candidates).2 hex
  · intro hall
    unfold selectBestAmount
    exact (selectBody_spec (fun c => scoreAmountCandidate c text) amount_candidates).1 hall
  · intro hex
    unfold selectBestAmount
    exact (selectBody_spec (fun c => scoreAmountCandidate c text) amount_candidates).2 hex

/-- Witness for `C9_select_best_floor` at concrete inputs. -/
theorem C9_select_best_floor_witness :
    (selectBestCandidate [(1:ℚ)/10, 2/10] id = none) ∧
    (∃ b ∈ [(5:ℚ)/10, 2/10], selectBestCandidate [(5:ℚ)/10, 2/10] id = some b ∧
      ∀ c ∈ [(5:ℚ)/10, 2/10], id c ≤ id b) := by
  constructor
  · exact (C9_select_best_floor id [(1:ℚ)/10, 2/10] [] []).1 (by decide)
  · exact (C9_select_best_floor id [(5:ℚ)/10, 2/10] [] []).2.1 ⟨5/10, by decide, by decide⟩

theorem log10q_nonneg (p : ℕ) : 0 ≤ log10q p := by
  unfold log10q
  repeat' split
  all_goals norm_num

theorem one_add_log10q_pos (p : ℕ) : (0:ℚ) < 1 + log10q p := by
  have := log10q_nonneg p
  linarith

theorem scoreAmount_strong_eq_one (c : AmountCandidate) (text : Str)
    (h1 : 1 ≤ c.priority) (h2 : c.priority ≤ 2)
    (hs : c.has_strong_kw = true) (hsub : c.in_subtotal_context = false)
    (hbl : c.in_blacklist_context = false) :
    scoreAmountCandidate c text = 1 := by
  unfold scoreAmountCandidate
  rw [hs, hsub, hbl]
  simp only [if_true, Bool.false_eq_true, if_false]
  have hbase : (7:ℚ)/10 ≤ 1 / (1 + log10q c.priority) := by
    have hp : c.priority = 1 ∨ c.priority = 2 := by omega
    rcases hp with hp | hp <;> rw [hp] <;> unfold log10q <;> norm_num
  have hone : ∀ B : ℚ, 1 ≤ B → max 0 (min 1 B) = 1 := by
    intro B hB
    rw [min_eq_left hB]
    exact max_eq_right (by norm_num)
  by_cases hprox : c.proximity_to_keywords < 100
  · rw [if_pos hprox]
    apply hone
    have hpq : ((c.proximity_to_keywords : ℚ)) ≤ 99 := by
      exact_mod_cast Nat.le_of_lt_succ hprox
    have : (0:ℚ) ≤ (2/10) * (1 - (c.proximity_to_keywords : ℚ)/100) := by
      have : (c.proximity_to_keywords : ℚ)/100 ≤ 99/100 := by linarith
      nlinarith
    linarith
  · rw [if_neg hprox]
    apply hone
    linarith

theorem scoreAmount_subtotal_le (c : AmountCandidate) (text : Str)
    (hsub : c.in_subtotal_context = true) (hs : c.has_strong_kw = false) :
    scoreAmountCandidate c text ≤ 8/10 := by
  unfold scoreAmountCandidate
  rw [hsub, hs]
  simp only [Bool.false_eq_true, if_false, if_true]
  have hbase : 1 / (1 + log10q c.priority) ≤ 1 := by
    rw [div_le_one (one_add_log10q_pos c.priority)]
    have := log10q_nonneg c.priority
    linarith
  have hfin : ∀ B : ℚ, B ≤ 8/10 → max 0 (min 1 B) ≤ 8/10 := by
    intro B hB
    exact max_le (by norm_num) (le_trans (min_le_right 1 B) hB)
  have hproxle : ∀ h : c.proximity_to_keywords < 100,
      (2:ℚ)/10 * (1 - (c.proximity_to_keywords : ℚ)/100) ≤ 2/10 := by
    intro _
    have : (0:ℚ) ≤ (c.proximity_to_keywords : ℚ)/100 := by positivity
    nlinarith
  by_cases hprox : c.proximity_to_keywords < 100
  · rw [if_pos hprox]
    by_cases hbl : c.in_blacklist_context = true
    · rw [if_pos hbl]
      apply hfin
      have := hproxle hprox
      linarith
    · rw [if_neg hbl]
      apply hfin
      have := hproxle hprox
      linarith
  · rw [if_neg hprox]
    by_cases hbl : c.in_blacklist_context = true
    · rw [if_pos hbl]
      apply hfin
      linarith
    · rw [if_neg hbl]
      apply hfin
      linarith

theorem selectBestAmount_spec {l : List AmountCandidate} {text : Str}
    {c : AmountCandidate} (h : selectBestAmount l text = some c) :
    c ∈ l ∧ ∀ d ∈ l, scoreAmountCandidate d text ≤ scoreAmountCandidate c text := by
  unfold selectBestAmount at h
  rcases hsort : sortDesc (fun p : AmountCandidate × ℚ => p.2)
      (l.map (fun c => (c, scoreAmountCandidate c text))) with _ | ⟨⟨b, s⟩, rest⟩
  · rw [hsort] at h
    exact absurd h (by simp [selectFromSorted])
  · rw [hsort] at h
    have hspec := sortDesc_head_spec (fun p : AmountCandidate × ℚ => p.2) _ hsort
    rcases List.mem_map.mp hspec.1 with ⟨c0, hc0l, hc0eq⟩
    have hb : c0 = b := congrArg Prod.fst hc0eq
    have hsc : scoreAmountCandidate c0 text = s := congrArg Prod.snd hc0eq
    have hbc : b = c := by
      by_cases hlt : s < 3/10
      · exact absurd h (by simp [selectFromSorted, hlt])
      · have : selectFromSorted ((b, s) :: rest) = some b := by
          simp [selectFromSorted, hlt]
        rw [this] at h
        exact Option.some_inj.mp h
    constructor
    · rw [← hbc, ← hb]; exact hc0l
    · intro d hd
      have hmem : (d, scoreAmountCandidate d text) ∈
          l.map (fun c => (c, scoreAmountCandidate c text)) :=
        List.mem_map.mpr ⟨d, hd, rfl⟩
      have := hspec.2 _ hmem
      rw [← hbc, ← hb, hsc]
      exact this

/--
C8 (amended): an amount candidate the code recognises as being in subtotal
context (`in_subtotal_context`: the literal word `subtotal` within the 30
characters before the match, and no strong prefix) is never selected as the
total when the list also holds a strong-prefix candidate of priority 1 or 2
outside subtotal and blacklist context.  The first hypothesis is the
invariant maintained by `create_amount_candidate`: a subtotal-context
candidate never carries the strong-prefix flag.  (As the counterexample
shows, the guard can miss a subtotal *label*: a spaced `Sub Total` evades
the lookbehinds and the `subtotal` substring check, so the claim as stated —
about subtotal-labeled amounts — is false.)
-/
theorem C8_subtotal_context_never_selected (l : List AmountCandidate)
    (text : Str)
    (hwf : ∀ c ∈ l, c.in_subtotal_context = true → c.has_strong_kw = false)
    (hstrong : ∃ cst ∈ l, 1 ≤ cst.priority ∧ cst.priority ≤ 2 ∧
      cst.has_strong_kw = true ∧ cst.in_subtotal_context = false ∧
      cst.in_blacklist_context = false) :
    ∀ c, selectBestAmount l text = some c → c.in_subtotal_context = false := by
  intro c h
  rcases hstrong with ⟨cst, hcstl, hp1, hp2, hs, hnsub, hnbl⟩
  have hspec := selectBestAmount_spec h
  have hcst : scoreAmountCandidate cst text = 1 :=
    scoreAmount_strong_eq_one cst text hp1 hp2 hs hnsub hnbl
  by_contra hsub
  rw [Bool.not_eq_false] at hsub
  have hle : scoreAmountCandidate c text ≤ 8/10 :=
    scoreAmount_subtotal_le c text hsub (hwf c hspec.1 hsub)
  have hge : scoreAmountCandidate cst text ≤ scoreAmountCandidate c text :=
    hspec.2 cst hcstl
  rw [hcst] at hge
  linarith

/-- The document of the C8 counterexample: a subtotal labeled with a spaced
`Sub Total`, followed by an unlabeled amount. -/
def subTotalDoc : Str := ("Sub Total: $50.00\n$60.00").toList

/--
The amount candidates `extract_amount` generates on `subTotalDoc`: running
the twelve `amount_patterns` with `finditer` (traced by hand against the
pattern list in `parser.py`) matches exactly
`generic_total` on `Total: $50.00` (the lookbehind `(?<!sub)` sees `ub ` —
the space defeats it), and `currency_symbol` on `$50.00` and on `$60.00`;
`parse_money` maps the captures to 50, 50 and 60.
-/
def subTotalDocCandidates : List AmountCandidate :=
  [createAmountCandidate 50 ("generic_total".toList) (4, 17)
     (("Total: $50.00").toList) 3 subTotalDoc,
   createAmountCandidate 50 ("currency_symbol".toList) (11, 17)
     (("$50.00").toList) 4 subTotalDoc,
   createAmountCandidate 60 ("currency_symbol".toList) (18, 24)
     (("$60.00").toList) 4 subTotalDoc]

/--
C8 counterexample: on `"Sub Total: $50.00\n$60.00"` the subtotal-labeled
amount 50.00 *is* selected as the total even though the unlabeled amount
60.00 also produced a candidate — the spaced `Sub Total` evades every
subtotal guard (`(?<!sub)` lookbehind, `subtotal` substring check), so the
label match `Total: $50.00` scores as a strong-prefix candidate.
-/
theorem C8_subtotal_selected_counterexample :
    (selectBestAmount subTotalDocCandidates subTotalDoc).map
      AmountCandidate.value = some 50 ∧
    (selectBestAmount subTotalDocCandidates subTotalDoc).map
      AmountCandidate.raw_text = some (("Total: $50.00").toList) ∧
    subTotalDocCandidates.map AmountCandidate.value = [50, 50, 60] := by
  refine ⟨by decide, by decide, by decide⟩

/-- Witness for `C8_subtotal_context_never_selected` at a concrete pair of
candidates. -/
theorem C8_subtotal_context_witness :
    (selectBestAmount
      [{ value := 60, pattern_name := ("total_strong_context").toList,
         match_span := (0, 13), priority := 2,
         raw_text := ("Total: $60.00").toList, proximity_to_keywords := 999,
         has_strong_kw := true, in_subtotal_context := false,
         in_blacklist_context := false },
       { value := 50, pattern_name := ("currency_symbol").toList,
         match_span := (20, 26), priority := 4,
         raw_text := ("$50.00").toList, proximity_to_keywords := 5,
         has_strong_kw := false, in_subtotal_context := true,
         in_blacklist_context := false }] [] ).map
      AmountCandidate.in_subtotal_context = some false := by
  have happ := C8_subtotal_context_never_selected
    [{ value := 60, pattern_name := ("total_strong_context").toList,
       match_span := (0, 13), priority := 2,
       raw_text := ("Total: $60.00").toList, proximity_to_keywords := 999,
       has_strong_kw := true, in_subtotal_context := false,
       in_blacklist_context := false },
     { value := 50, pattern_name := ("currency_symbol").toList,
       match_span := (20, 26), priority := 4,
       raw_text := ("$50.00").toList, proximity_to_keywords := 5,
       has_strong_kw := false, in_subtotal_context := true,
       in_blacklist_context := false }] []
    (by decide)
    ⟨{ value := 60, pattern_name := ("total_strong_context").toList,
       match_span := (0, 13), priority := 2,
       raw_text := ("Total: $60.00").toList, proximity_to_keywords := 999,
       has_strong_kw := true, in_subtotal_context := false,
       in_blacklist_context := false },
     by decide, by decide, by decide, by decide, by decide, by decide⟩
  have hsel := happ
    { value := 60, pattern_name := ("total_strong_context").toList,
      match_span := (0, 13), priority := 2,
      raw_text := ("Total: $60.00").toList, proximity_to_keywords := 999,
      has_strong_kw := true, in_subtotal_context := false,
      in_blacklist_context := false }
    (by decide)
  rw [show (selectBestAmount
      [{ value := 60, pattern_name := ("total_strong_context").toList,
         match_span := (0, 13), priority := 2,
         raw_text := ("Total: $60.00").toList, proximity_to_keywords := 999,
         has_strong_kw := true, in_subtotal_context := false,
         in_blacklist_context := false },
       { value := 50, pattern_name := ("currency_symbol").toList,
         match_span := (20, 26), priority := 4,
         raw_text := ("$50.00").toList, proximity_to_keywords := 5,
         has_strong_kw := false, in_subtotal_context := true,
         in_blacklist_context := false }] []) =
      some { value := 60, pattern_name := ("total_strong_context").toList,
             match_span := (0, 13), priority := 2,
             raw_text := ("Total: $60.00").toList, proximity_to_keywords := 999,
             has_strong_kw := true, in_subtotal_context := false,
             in_blacklist_context := false } from by decide]
  exact congrArg some hsel

/-! ## `ReceiptParser._validate_amount_consistency` (`app/services/parser.py`) -/

/-- The tail `\.\d{2}` of the amount group. -/
def tryDot (acc : Str) (r : Str) : Option Str :=
  match r with
  | '.' :: e1 :: e2 :: _ =>
    if isAsciiDigit e1 && isAsciiDigit e2 then some (acc ++ ['.', e1, e2])
    else none
  | _ => none

/-- The greedy, backtracking `(?:,\d{3})*\.\d{2}` tail of the amount group:
consume as many groups as possible, then retreat one group at a time until
the decimal tail matches. -/
def groupsThenDot (fuel : Nat) (acc : Str) (r : Str) : Option Str :=
  match fuel with
  | 0 => tryDot acc r
  | fuel + 1 =>
    match r with
    | ',' :: d1 :: d2 :: d3 :: rest =>
      if isAsciiDigit d1 && isAsciiDigit d2 && isAsciiDigit d3 then
        match groupsThenDot fuel (acc ++ [',', d1, d2, d3]) rest with
        | some res => some res
        | none => tryDot acc r
      else tryDot acc r
    | _ => tryDot acc r

/-- The amount group `(\d{1,3}(?:,\d{3})*\.\d{2})` matched at the start of
`s`: the leading `\d{1,3}` is greedy, backtracking from three digits down. -/
def matchAmountGroup (s : Str) : Option Str :=
  goK (min 3 (s.takeWhile (isAsciiDigit ·)).length) s
where
  goK : Nat → Str → Option Str
    | 0, _ => none
    | k + 1, s =>
      match groupsThenDot s.length (s.take (k + 1)) (s.drop (k + 1)) with
      | some res => some res
      | none => goK k s

/-- One subtotal pattern `(?:w1\s*w2)[\s:]*\$?\s*(\d{1,3}(?:,\d{3})*\.\d{2})`
tried at the start of the (lowered) text `t`. -/
def labeledAmountAt (w1 w2 : Str) (t : Str) : Option Str :=
  if w1.isPrefixOf t then
    let r1 := (t.drop w1.length).dropWhile (isWs ·)
    if w2.isPrefixOf r1 then
      let r2 := (r1.drop w2.length).dropWhile (fun c => isWs c || c = ':')
      let r3 := if r2.head? = some '$' then r2.tail.dropWhile (isWs ·) else r2
      matchAmountGroup r3
    else none
  else none

/-- `re.search` of one subtotal pattern: the leftmost position where it
matches, returning the captured amount group. -/
def searchLabeled (w1 w2 : Str) : Str → Option Str
  | [] => none
  | c :: rest =>
    match labeledAmountAt w1 w2 (c :: rest) with
    | some g => some g
    | none => searchLabeled w1 w2 rest

/-- The subtotal search of `_validate_amount_consistency`: try the
`sub\s*total` pattern, then the `before\s*tax` pattern, parsing the captured
group with commas removed (`Decimal(match.group(1).replace(',', ''))`). -/
def findSubtotalInText (text : Str) : Option ℚ :=
  let low := lowerL text
  match (searchLabeled ("sub".toList) ("total".toList) low).bind
      (fun g => pyDecimal (g.filter (· ≠ ','))) with
  | some v => some v
  | none =>
    (searchLabeled ("before".toList) ("tax".toList) low).bind
      (fun g => pyDecimal (g.filter (· ≠ ',')))

/-- The warning string recorded on an inconsistent amount (the interpolated
numbers of the f-string are elided). -/
def inconsistencyWarning : Str :=
  ("Amount inconsistency: subtotal + tax != total").toList

/-- The consistency check of `_validate_amount_consistency` once a subtotal
search result is at hand (`if not subtotal` treats a zero `Decimal` as
absent). -/
def validateCore (sub : Option ℚ) (a t : ℚ) (debug : DebugInfo) :
    Bool × DebugInfo :=
  match sub with
  | none => (true, debug)
  | some s =>
    if s = 0 then (true, debug)
    else
      let calculated := s + t
      let tolerance := max (a * (1/100)) (2/100)
      let is_consistent : Bool := |calculated - a| ≤ tolerance
      ((is_consistent : Bool),
       { debug with
         amount_validation := some
           { subtotal := s, tax := t, calculated_total := calculated,
             extracted_total := a, tolerance := tolerance,
             is_consistent := is_consistent },
         warnings :=
           if is_consistent then debug.warnings
           else debug.warnings ++ [inconsistencyWarning] })

/--
`_validate_amount_consistency(amount, tax, text, debug)`.  Python truthiness:
`if not amount or not tax` treats both `None` and a zero `Decimal` as absent.
-/
def validateAmountConsistency (amount tax : Option ℚ) (text : Str)
    (debug : DebugInfo) : Bool × DebugInfo :=
  if amount = none ∨ amount = some 0 ∨ tax = none ∨ tax = some 0 then
    (true, debug)
  else
    validateCore (findSubtotalInText text) (amount.getD 0) (tax.getD 0) debug

/-- A debug record with nothing recorded yet. -/
def emptyDebug : DebugInfo :=
  { confidence_per_field :=
      { vendor := none, amount := none, date := none, currency := none, tax := none },
    warnings := [], amount_validation := none }

/--
C6 counterexample: on `"Subtotal: $0.00\nTax: $5.00\nTotal: $60.00"` the
subtotal-labeled amount 0.00 is found and `|0 + 5 − 60|` far exceeds the
tolerance, yet `_validate_amount_consistency` records nothing and reports
consistency — Python's `if not subtotal` treats the zero `Decimal` as
absent.  The claim as stated (any present subtotal-labeled amount triggers
the warning path) is therefore false.
-/
theorem C6_zero_subtotal_counterexample :
    findSubtotalInText (("Subtotal: $0.00\nTax: $5.00\nTotal: $60.00").toList) = some 0 ∧
    max ((60:ℚ) * (1/100)) (2/100) < |(0:ℚ) + 5 - 60| ∧
    validateAmountConsistency (some 60) (some 5)
      (("Subtotal: $0.00\nTax: $5.00\nTotal: $60.00").toList) emptyDebug =
      (true, emptyDebug) := by
  refine ⟨by decide, by decide, by decide⟩

/--
C6 (amended): whenever the extracted amount and tax and the subtotal-labeled
amount are all present *and nonzero*, and `|subtotal + tax − amount|`
exceeds `max(1% of amount, $0.02)`, validation fails, the warning is
recorded, the amount and tax fields are unchanged, and `needs_review` is
true; within the tolerance no warning is recorded and the fields are
likewise unchanged.  (A subtotal parsed as `0.00` is treated as absent by
the Python truthiness check, which is all the counterexample forces; a zero
amount or tax cannot reach this code from `parse`, since extraction only
keeps positive values.)
-/
theorem C6_validate_consistency (r : ParseOutcome) (text : Str) (a t s : ℚ)
    (hra : r.amount = some a) (hrt : r.tax = some t)
    (hsub : findSubtotalInText text = some s)
    (ha0 : ¬ a = 0) (ht0 : ¬ t = 0) (hs0 : ¬ s = 0) :
    (max (a * (1/100)) (2/100) < |s + t - a| →
      (validateAmountConsistency r.amount r.tax text r.debug).1 = false
      ∧ (validateAmountConsistency r.amount r.tax text r.debug).2.warnings =
          r.debug.warnings ++ [inconsistencyWarning]
      ∧ (validateAmountConsistency r.amount r.tax text r.debug).2.amount_validation =
          some { subtotal := s, tax := t, calculated_total := s + t,
                 extracted_total := a, tolerance := max (a * (1/100)) (2/100),
                 is_consistent := false }
      ∧ ({ r with debug := (validateAmountConsistency r.amount r.tax text r.debug).2 }).amount
          = r.amount
      ∧ ({ r with debug := (validateAmountConsistency r.amount r.tax text r.debug).2 }).tax
          = r.tax
      ∧ requiresReview
          { r with debug := (validateAmountConsistency r.amount r.tax text r.debug).2 }
          (validateAmountConsistency r.amount r.tax text r.debug).2 = true)
  ∧ (|s + t - a| ≤ max (a * (1/100)) (2/100) →
      (validateAmountConsistency r.amount r.tax text r.debug).1 = true
      ∧ (validateAmountConsistency r.amount r.tax text r.debug).2.warnings =
          r.debug.warnings
      ∧ ({ r with debug := (validateAmountConsistency r.amount r.tax text r.debug).2 }).amount
          = r.amount
      ∧ ({ r with debug := (validateAmountConsistency r.amount r.tax text r.debug).2 }).tax
          = r.tax) := by
  have hcore : validateAmountConsistency r.amount r.tax text r.debug =
      (((|s + t - a| ≤ max (a * (1/100)) (2/100) : Prop) : Bool),
       { r.debug with
         amount_validation := some
           { subtotal := s, tax := t, calculated_total := s + t,
             extracted_total := a, tolerance := max (a * (1/100)) (2/100),
             is_consistent := ((|s + t - a| ≤ max (a * (1/100)) (2/100) : Prop) : Bool) },
         warnings :=
           if ((|s + t - a| ≤ max (a * (1/100)) (2/100) : Prop) : Bool) then r.debug.warnings
           else r.debug.warnings ++ [inconsistencyWarning] }) := by
    rw [hra, hrt]
    unfold validateAmountConsistency
    rw [if_neg (by
      intro hor
      rcases hor with h | h | h | h
      · exact Option.noConfusion h
      · exact ha0 (Option.some_inj.mp h)
      · exact Option.noConfusion h
      · exact ht0 (Option.some_inj.mp h))]
    rw [hsub]
    simp only [validateCore, Option.getD_some]
    rw [if_neg hs0]
  constructor
  · intro hfar
    have hb : ((|s + t - a| ≤ max (a * (1/100)) (2/100) : Prop) : Bool) = false :=
      decide_eq_false (not_le.mpr hfar)
    rw [hcore]
    rw [hb]
    refine ⟨rfl, by simp, by simp [hb], rfl, rfl, ?_⟩
    unfold requiresReview
    by_cases h1 : r.confidence < 7/10
    · simp [h1]
    · rw [if_neg h1]
      by_cases h2 : (({ r.debug with
            amount_validation := some
              { subtotal := s, tax := t, calculated_total := s + t,
                extracted_total := a, tolerance := max (a * (1/100)) (2/100),
                is_consistent := false },
            warnings := r.debug.warnings ++ [inconsistencyWarning] } :
              DebugInfo).confidence_per_field.vendor.getD 0 < 7/10 ∨
          ({ r.debug with
            amount_validation := some
              { subtotal := s, tax := t, calculated_total := s + t,
                extracted_total := a, tolerance := max (a * (1/100)) (2/100),
                is_consistent := false },
            warnings := r.debug.warnings ++ [inconsistencyWarning] } :
              DebugInfo).confidence_per_field.amount.getD 0 < 7/10)
      · simp only [if_pos h2]
      · rw [if_neg h2]
        by_cases h3 : ({ r with debug := { r.debug with
              amount_validation := some
                { subtotal := s, tax := t, calculated_total := s + t,
                  extracted_total := a, tolerance := max (a * (1/100)) (2/100),
                  is_consistent := false },
              warnings := r.debug.warnings ++ [inconsistencyWarning] } } :
                ParseOutcome).vendor = none ∨
            ({ r with debug := { r.debug with
              amount_validation := some
                { subtotal := s, tax := t, calculated_total := s + t,
                  extracted_total := a, tolerance := max (a * (1/100)) (2/100),
                  is_consistent := false },
              warnings := r.debug.warnings ++ [inconsistencyWarning] } } :
                ParseOutcome).amount = none
        · simp only [if_pos h3]
        · rw [if_neg h3]
          simp
  · intro hclose
    have hb : ((|s + t - a| ≤ max (a * (1/100)) (2/100) : Prop) : Bool) = true :=
      decide_eq_true hclose
    rw [hcore]
    rw [hb]
    exact ⟨rfl, by simp, rfl, rfl⟩

/-- Witness for `C6_validate_consistency` on the spec's own example
`"Subtotal: $50.00\nTax: $5.00\nTotal: $60.00"`. -/
theorem C6_validate_consistency_witness :
    (validateAmountConsistency (some 60) (some 5)
      (("Subtotal: $50.00\nTax: $5.00\nTotal: $60.00").toList) emptyDebug).1 = false :=
  ((C6_validate_consistency
      { vendor := some ("Acme".toList), amount := some 60, currency := none,
        date := none, tax := some 5, confidence := 1,
        debug := emptyDebug }
      (("Subtotal: $50.00\nTax: $5.00\nTotal: $60.00").toList) 60 5 50
      rfl rfl (by decide) (by decide) (by decide) (by decide)).1
    (by norm_num [abs_of_nonneg])).1

/-! ## `ReceiptParser.extract_tax` (`app/services/parser.py`) -/

/-- A character span `(start, end)` of a regex capture group. -/
abbrev Span := ℕ × ℕ

/-- The text captured by a group span (`match.group(match.lastindex or 1)`:
every tax pattern's last participating group is the amount group, and the
group string is the corresponding slice of the input text). -/
def groupOf (text : Str) (sp : Span) : Str := slice text sp.1 sp.2

/-- One iteration of the `extract_tax` loop: skip an already-seen span,
otherwise record the span and keep the parsed value when it is positive
(`tax_str = group.replace(',', '').replace('$', '').strip()`). -/
def taxStep (text : Str) (acc : List Span × List ℚ) (sp : Span) :
    List Span × List ℚ :=
  if sp ∈ acc.1 then acc
  else
    let tax_str := trimL (((groupOf text sp).filter (· ≠ ',')).filter (· ≠ '$'))
    match pyDecimal tax_str with
    | some tax => if 0 < tax then (sp :: acc.1, acc.2 ++ [tax]) else (sp :: acc.1, acc.2)
    | none => (sp :: acc.1, acc.2)

/--
`extract_tax`: `patternMatches` holds, per tax pattern and in pattern order,
the amount-group spans its `finditer` run produces on `text` (the regex
layer is the oracle parameter of the embedding; everything after it is the
source's loop).  The seen-span set and the running tax list are threaded
through all matches; the sum is returned unless no tax survived.
-/
def extractTax (text : Str) (patternMatches : List (List Span)) : Option ℚ :=
  let acc := patternMatches.foldl (fun acc ms => ms.foldl (taxStep text) acc) ([], [])
  if acc.2 = [] then none else some acc.2.sum

/-- Specification side: the first occurrence of each distinct span, in match
order, starting from an already-seen set. -/
def dedupFrom (seen : List Span) : List Span → List Span
  | [] => []
  | sp :: rest =>
    if sp ∈ seen then dedupFrom seen rest
    else sp :: dedupFrom (sp :: seen) rest

/-- Specification side: the positive parsed tax value at a span, if any. -/
def taxValueAt (text : Str) (sp : Span) : Option ℚ :=
  match pyDecimal (trimL (((groupOf text sp).filter (· ≠ ',')).filter (· ≠ '$'))) with
  | some v => if 0 < v then some v else none
  | none => none

theorem taxFold_spec (text : Str) :
    ∀ (spans : List Span) (seen : List Span) (taxes : List ℚ),
      (spans.foldl (taxStep text) (seen, taxes)).2 =
        taxes ++ (dedupFrom seen spans).filterMap (taxValueAt text) := by
  intro spans
  induction spans with
  | nil => intro seen taxes; simp [dedupFrom]
  | cons sp rest ih =>
    intro seen taxes
    rw [List.foldl_cons]
    by_cases hmem : sp ∈ seen
    · have hstep : taxStep text (seen, taxes) sp = (seen, taxes) := by
        unfold taxStep
        rw [if_pos hmem]
      rw [hstep, ih, dedupFrom, if_pos hmem]
    · rw [dedupFrom, if_neg hmem]
      have hstep : taxStep text (seen, taxes) sp =
          (sp :: seen, taxes ++ (taxValueAt text sp).toList) := by
        simp only [taxStep, taxValueAt]
        rw [if_neg hmem]
        rcases hp : pyDecimal (trimL (((groupOf text sp).filter (· ≠ ',')).filter (· ≠ '$'))) with _ | v
        · simp
        · by_cases hpos : 0 < v
          · simp [hpos]
          · simp [hpos]
      rw [hstep, ih]
      rw [List.filterMap_cons]
      rcases taxValueAt text sp with _ | v
      · simp
      · simp

/--
C3: `extract_tax` returns exactly the sum, over distinct captured-amount
character spans (first occurrence per span, in pattern-then-match order), of
the positive parsed tax amounts, and `None` when there are none.  A span
matched by several patterns therefore contributes exactly once, while two
tax lines with different spans each contribute even when their parsed
values are equal.
-/
theorem C3_extract_tax_span_dedup (text : Str) (patternMatches : List (List Span)) :
    extractTax text patternMatches =
      (if (dedupFrom [] patternMatches.flatten).filterMap (taxValueAt text) = []
       then none
       else some ((dedupFrom [] patternMatches.flatten).filterMap (taxValueAt text)).sum) := by
  unfold extractTax
  have hjoin : patternMatches.foldl (fun acc ms => ms.foldl (taxStep text) acc) ([], []) =
      patternMatches.flatten.foldl (taxStep text) ([], []) := by
    rw [List.foldl_flatten]
  rw [hjoin]
  have := taxFold_spec text patternMatches.flatten [] []
  rcases hfold : patternMatches.flatten.foldl (taxStep text) ([], []) with ⟨seenF, taxesF⟩
  rw [hfold] at this
  simp only [List.nil_append] at this
  rw [this]

/-- The spec's tax example `"GST: $2.62\nHST: $4.70"`. -/
def gstHstDoc : Str := ("GST: $2.62\nHST: $4.70").toList

/--
The amount-group spans the twelve `tax_patterns` produce on `gstHstDoc`
(hand-traced `finditer` runs): only `sales_tax_hst_gst` — the third pattern —
matches, once at `GST: $2.62` capturing `2.62` at span `(6, 10)` and once
at `HST: $4.70` capturing `4.70` at span `(17, 21)`.
-/
def gstHstSpans : List (List Span) :=
  [[], [], [(6, 10), (17, 21)], [], [], [], [], [], [], [], [], []]

/-- Witness: via `C3_extract_tax_span_dedup`, the two differently-labeled
tax lines GST $2.62 and HST $4.70 sum to $7.32, and a duplicated span is
counted once. -/
theorem C3_extract_tax_witness :
    extractTax gstHstDoc gstHstSpans = some (183/25) ∧
    extractTax gstHstDoc [[(6, 10)], [(6, 10)]] = some (131/50) := by
  constructor
  · rw [C3_extract_tax_span_dedup]
    decide
  · rw [C3_extract_tax_span_dedup]
    decide

/-! ## `ReceiptParser._detect_forwarded_email` (`app/services/parser.py`) -/

/-- `ParseContext` from `parser.py`. -/
structure ParseContext where
  sender_domain : Option Str
  sender_name : Option Str
  subject : Option Str
  user_locale : Option Str
  user_currency : Option Str
  billing_country : Option Str
  deriving DecidableEq, Repr

/-- A `ParseContext` with every hint absent. -/
def emptyContext : ParseContext :=
  { sender_domain := none, sender_name := none, subject := none,
    user_locale := none, user_currency := none, billing_country := none }

/-- Generic `re.search` driver: does the anchored matcher accept at any
position? -/
def searchBool (p : Str → Bool) : Str → Bool
  | [] => p []
  | c :: rest => p (c :: rest) || searchBool p rest

/-- The pattern `[-=]+\s*forwarded message\s*[-=]+` anchored at the start of
the (lowered) text. -/
def fwdMarkerAt (t : Str) : Bool :=
  let r0 := t.takeWhile (fun c => c = '-' || c = '=')
  if r0.isEmpty then false
  else
    let r1 := (t.drop r0.length).dropWhile (isWs ·)
    if ("forwarded message".toList).isPrefixOf r1 then
      let r2 := (r1.drop ("forwarded message".toList).length).dropWhile (isWs ·)
      match r2.head? with
      | some c => c = '-' || c = '='
      | none => false
    else false

/-- Split on newline characters (used for the stacked-header pattern). -/
def splitOnNl : Str → List Str
  | [] => [[]]
  | c :: rest =>
    if c = '\n' then [] :: splitOnNl rest
    else
      match splitOnNl rest with
      | l :: ls => (c :: l) :: ls
      | [] => [[c]]

/-- The pattern `from:.*\n.*to:.*\n.*subject:` on the (lowered) text: three
consecutive lines holding `from:`, `to:` and `subject:`. -/
def fwdHeaders (t : Str) : Bool :=
  chk (splitOnNl t)
where
  chk : List Str → Bool
    | l1 :: l2 :: l3 :: rest =>
      (isSubstr ("from:".toList) l1 && isSubstr ("to:".toList) l2 &&
        isSubstr ("subject:".toList) l3) || chk (l2 :: l3 :: rest)
    | _ => false

/-- The `personal_domains` list of `_detect_forwarded_email`. -/
def personalDomains : List Str :=
  ["gmail.com", "yahoo.com", "outlook.com", "hotmail.com",
   "icloud.com", "me.com", "live.com", "aol.com"].map String.toList

/-- The pure computation inside `_detect_forwarded_email` (pattern checks on
`text[:1000]`, then the personal-sender-domain heuristic). -/
def computeForwarded (text : Str) (context : Option ParseContext) : Bool :=
  let p1000 := lowerL (text.take 1000)
  let by_patterns :=
    searchBool fwdMarkerAt p1000 ||
    isSubstr ("---------- forwarded".toList) p1000 ||
    isSubstr ("begin forwarded message".toList) p1000 ||
    fwdHeaders p1000
  if by_patterns then true
  else
    match context with
    | some ctx =>
      match ctx.sender_domain with
      | some d => personalDomains.any (fun pd => isSubstr pd (lowerL d))
      | none => false
    | none => false

/-- The per-instance `_forwarded_email_cache`, threaded explicitly.  The key
`hash(text[:500])` is modelled by the first 500 characters themselves (the
hash is a deterministic function of them within a process; collisions are
not modelled). -/
abbrev FwdCache := List (Str × Bool)

def cacheLookup : FwdCache → Str → Option Bool
  | [], _ => none
  | (k', v) :: rest, k => if k' = k then some v else cacheLookup rest k

/-- `_detect_forwarded_email`: return the cached answer when the key is
present, otherwise compute, store and return it. -/
def detectForwardedEmail (cache : FwdCache) (text : Str)
    (context : Option ParseContext) : Bool × FwdCache :=
  match cacheLookup cache (text.take 500) with
  | some v => (v, cache)
  | none =>
    (computeForwarded text context,
     (text.take 500, computeForwarded text context) :: cache)

/-- A sequence of detection calls on the same parser instance. -/
def runDetects (cache : FwdCache) : List (Str × Option ParseContext) → FwdCache
  | [] => cache
  | (t, c) :: rest => runDetects (detectForwardedEmail cache t c).2 rest

theorem detect_hit {cache : FwdCache} {t : Str} {v : Bool}
    (c : Option ParseContext) (h : cacheLookup cache (t.take 500) = some v) :
    detectForwardedEmail cache t c = (v, cache) := by
  unfold detectForwardedEmail
  rw [h]

theorem detect_miss {cache : FwdCache} {t : Str}
    (c : Option ParseContext) (h : cacheLookup cache (t.take 500) = none) :
    detectForwardedEmail cache t c =
      (computeForwarded t c,
       (t.take 500, computeForwarded t c) :: cache) := by
  unfold detectForwardedEmail
  rw [h]

theorem cacheLookup_detect_preserved {cache : FwdCache} {k : Str} {v : Bool}
    (h : cacheLookup cache k = some v) (t : Str) (c : Option ParseContext) :
    cacheLookup (detectForwardedEmail cache t c).2 k = some v := by
  rcases hl : cacheLookup cache (t.take 500) with _ | w
  · rw [detect_miss c hl]
    have hne : ¬ t.take 500 = k := by
      intro he
      rw [he, h] at hl
      exact Option.noConfusion hl
    rw [cacheLookup, if_neg hne]
    exact h
  · rw [detect_hit c hl]
    exact h

theorem cacheLookup_run_preserved {k : Str} {v : Bool} :
    ∀ (calls : List (Str × Option ParseContext)) (cache : FwdCache),
      cacheLookup cache k = some v →
      cacheLookup (runDetects cache calls) k = some v := by
  intro calls
  induction calls with
  | nil => intro cache h; exact h
  | cons tc rest ih =>
    intro cache h
    rcases tc with ⟨t, c⟩
    rw [runDetects]
    exact ih _ (cacheLookup_detect_preserved h t c)

theorem detect_records {cache : FwdCache} {t : Str} {c : Option ParseContext} :
    cacheLookup (detectForwardedEmail cache t c).2 (t.take 500) =
      some (detectForwardedEmail cache t c).1 := by
  rcases hl : cacheLookup cache (t.take 500) with _ | w
  · rw [detect_miss c hl, cacheLookup, if_pos rfl]
  · rw [detect_hit c hl]
    exact hl

/--
C4 (amended): the forwarded-email cache is write-once per key, so two calls
with the same text and context on the same instance return equal flags no
matter which other calls run before or between them.  (As the counterexample
shows, a call is *not* a pure function of its inputs: an earlier call whose
text shares the same 500-character cache key but carried a different context
fixes the cached answer, so `parse` does depend on mutable shared state.)
-/
theorem C4_detect_forwarded_stable (pre mid : List (Str × Option ParseContext))
    (t : Str) (c : Option ParseContext) :
    (detectForwardedEmail
        (runDetects (detectForwardedEmail (runDetects [] pre) t c).2 mid)
        t c).1 =
    (detectForwardedEmail (runDetects [] pre) t c).1 := by
  have h1 := @detect_records (runDetects [] pre) t c
  have h2 := cacheLookup_run_preserved mid _ h1
  rw [detect_hit c h2]

/--
C4 counterexample: on the same instance, `_detect_forwarded_email` for
(`"receipt"`, no context) answers `false` on a fresh cache but `true` after
an earlier call with the same text and a `gmail.com` sender context — the
call is not a pure function of its input text plus context, it reads the
mutable shared cache.
-/
theorem C4_detect_forwarded_counterexample :
    (detectForwardedEmail [] ("receipt".toList) none).1 = false ∧
    (detectForwardedEmail
        (detectForwardedEmail [] ("receipt".toList)
          (some { emptyContext with sender_domain := some ("gmail.com".toList) })).2
        ("receipt".toList) none).1 = true := by
  constructor
  · decide
  · decide

/-! ## `ReceiptParser.extract_currency` (`app/services/parser.py`) -/

/-- The currency-code list iterated by strategies 1 and 2. -/
def currencyCodes : List Str :=
  ["CAD", "USD", "EUR", "GBP", "AUD", "NZD", "JPY"].map String.toList

/-- The keyword list of strategy 2. -/
def currencyKeywords : List Str :=
  ["TOTAL", "AMOUNT", "CHARGED", "PAID"].map String.toList

/-- `canadian_indicators` of strategy 3. -/
def canadianIndicators : List Str :=
  ["CANADA", "GST", "PST", "HST"].map String.toList

/-- `canadian_provinces` of strategy 3 (space-padded). -/
def canadianProvinces : List Str :=
  [" AB ", " BC ", " MB ", " NB ", " NL ", " NS ", " ON ", " PE ", " QC ",
   " SK "].map String.toList

/-- `[i for i in range(len(tu)) if tu.startswith(kw, i)]`. -/
def keywordPositions (kw : Str) (tu : Str) : List ℕ :=
  (List.range tu.length).filter (fun i => startsWithL kw (tu.drop i))

/-- Strategy 1: explicit codes in the ±200-character vicinity of the amount
match span (present only when the debug dict carries `amount_match_span`). -/
def currencyStrat1 (text : Str) (amountSpan : Option (ℕ × ℕ)) :
    List CurrencyCandidate :=
  match amountSpan with
  | none => []
  | some (s, e) =>
    let vicinity := slice text (s - 200) (min text.length (e + 200))
    (currencyCodes.filter (fun code => isSubstr code (upperL vicinity))).map
      (fun code =>
        createCurrencyCandidate code ("explicit_near_amount".toList) (s, e)
          code 1 true text)

/-- Strategy 2: codes within 100 characters after TOTAL/AMOUNT/CHARGED/PAID
keywords (`tu` is the uppercased text). -/
def currencyStrat2 (text tu : Str) : List CurrencyCandidate :=
  currencyKeywords.flatMap (fun kw =>
    (keywordPositions kw tu).flatMap (fun pos =>
      (currencyCodes.filter
          (fun code => isSubstr code (slice tu pos (pos + 100)))).map
        (fun code =>
          createCurrencyCandidate code ("explicit_near_keyword".toList)
            (pos, pos + kw.length) code 2 true text)))

/-- Strategy 3: the CAD heuristic from Canadian tax/province indicators,
with the near-keyword USD override. -/
def currencyStratCad (text tu : Str) : List CurrencyCandidate :=
  let has_canadian_indicator :=
    canadianIndicators.any (fun t => isSubstr t tu)
  let has_province_code :=
    canadianProvinces.any (fun t => isSubstr t tu)
  if has_canadian_indicator || has_province_code then
    let has_usd_override :=
      (["TOTAL", "AMOUNT"].map String.toList).any (fun kw =>
        (keywordPositions kw tu).any (fun pos =>
          isSubstr ("USD".toList) (slice tu pos (pos + 100))))
    if has_usd_override then []
    else
      [createCurrencyCandidate ("CAD".toList) ("cad_heuristic".toList) (0, 0)
        (if has_province_code then "province_code".toList
         else "GST/PST/CANADA".toList) 3 false text]
  else []

/-- Strategy 4: the `C$` / `C $` prefix. -/
def currencyStrat4 (text : Str) : List CurrencyCandidate :=
  if isSubstr ("C$".toList) text || isSubstr ("C $".toList) text then
    [createCurrencyCandidate ("CAD".toList) ("c_dollar_symbol".toList) (0, 0)
      ("C$".toList) 2 false text]
  else []

/-- Strategy 5: the non-dollar currency symbols €, £, ¥. -/
def currencyStrat5 (text : Str) : List CurrencyCandidate :=
  [('€', "EUR"), ('£', "GBP"), ('¥', "JPY")].flatMap (fun p =>
    if isSubstr [p.1] text then
      [createCurrencyCandidate p.2.toList ("currency_symbol".toList) (0, 0)
        [p.1] 4 false text]
    else [])

/-- The full candidate list of `extract_currency`.  Strategy 6 (a bare `$`)
appends no candidate on any path: its only live branch assigns a local
`code` that is never used, and its other branch is `pass`, so it is not
modelled. -/
def currencyCandidates (text : Str) (amountSpan : Option (ℕ × ℕ)) :
    List CurrencyCandidate :=
  currencyStrat1 text amountSpan ++ currencyStrat2 text (upperL text) ++
    currencyStratCad text (upperL text) ++ currencyStrat4 text ++
    currencyStrat5 text

/-- `extract_currency` down to the selection step, with the selector applied
as `select_best_currency(candidates)` per that function's own signature.
(The source call site passes `return_score=True`, a keyword
`select_best_currency` does not accept, so the call as written raises
`TypeError`; this definition captures the selection the surrounding code
unpacks.) -/
def extractCurrency (text : Str) (amountSpan : Option (ℕ × ℕ)) : Option Str :=
  (selectBestCurrency (currencyCandidates text amountSpan)).map (·.value)

theorem upperL_slice (s : Str) (a b : ℕ) :
    upperL (slice s a b) = slice (upperL s) a b := by
  simp [upperL, slice, List.map_take, List.map_drop]

theorem isSubstr_nil_pat (s : Str) : isSubstr [] s = true := by
  cases s with
  | nil => rfl
  | cons c rest => simp [isSubstr, List.isPrefixOf]

theorem isSubstr_of_isPrefixOf {p s : Str} (h : p.isPrefixOf s) :
    isSubstr p s = true := by
  cases s with
  | nil =>
    cases p with
    | nil => rfl
    | cons c rest => simp [List.isPrefixOf] at h
  | cons c rest => simp [isSubstr, h]

theorem isSubstr_append_right {p s : Str} (t : Str)
    (h : isSubstr p s = true) : isSubstr p (t ++ s) = true := by
  induction t with
  | nil => exact h
  | cons c rest ih => simp [isSubstr, ih]

theorem isSubstr_append_left {p s : Str} (t : Str)
    (h : isSubstr p s = true) : isSubstr p (s ++ t) = true := by
  induction s with
  | nil =>
    have hp : p = [] := by
      cases p with
      | nil => rfl
      | cons c rest => simp [isSubstr, List.isEmpty] at h
    rw [hp]
    simp [isSubstr_nil_pat]
  | cons c rest ih =>
    rw [isSubstr] at h
    rcases Bool.or_eq_true_iff.mp h with h1 | h2
    · have hpre : p <+: (c :: rest) := (List.isPrefixOf_iff_prefix).mp h1
      have hpre2 : p <+: (c :: rest) ++ t :=
        hpre.trans (List.prefix_append _ _)
      rw [List.cons_append] at hpre2
      rw [List.cons_append, isSubstr]
      simp [List.isPrefixOf_iff_prefix.mpr hpre2]
    · rw [List.cons_append, isSubstr]
      simp [ih h2]

/-- A substring of a slice of `s` is a substring of `s`. -/
theorem isSubstr_slice {p s : Str} {a b : ℕ}
    (h : isSubstr p (slice s a b) = true) : isSubstr p s = true := by
  have h1 : isSubstr p ((s.drop a).take (b - a) ++ (s.drop a).drop (b - a)) = true :=
    isSubstr_append_left _ h
  rw [List.take_append_drop] at h1
  have h2 : isSubstr p (s.take a ++ s.drop a) = true :=
    isSubstr_append_right _ h1
  rwa [List.take_append_drop] at h2

/--
C7: when the text has no explicit currency code (CAD/USD/EUR/GBP/AUD/NZD/JPY
anywhere in its uppercase form), no Canadian tax or province indicator, no
`C$`/`C $`, and none of €, £, ¥ — even if it does contain a bare `$` —
`extract_currency` builds an empty candidate list and its selection step
yields null rather than a defaulted USD.  (As written the source then calls
`select_best_currency(candidates, return_score=True)`, which raises
`TypeError` instead of returning the null.)
-/
theorem C7_bare_dollar_no_currency (text : Str) (amountSpan : Option (ℕ × ℕ))
    (_hdollar : isSubstr ("$".toList) text = true)
    (hcode : ∀ code ∈ currencyCodes, isSubstr code (upperL text) = false)
    (hind : ∀ t ∈ canadianIndicators, isSubstr t (upperL text) = false)
    (hprov : ∀ t ∈ canadianProvinces, isSubstr t (upperL text) = false)
    (hc1 : isSubstr ("C$".toList) text = false)
    (hc2 : isSubstr ("C $".toList) text = false)
    (heuro : isSubstr ['€'] text = false)
    (hgbp : isSubstr ['£'] text = false)
    (hyen : isSubstr ['¥'] text = false) :
    currencyCandidates text amountSpan = [] ∧
      extractCurrency text amountSpan = none := by
  have h1 : currencyStrat1 text amountSpan = [] := by
    rcases amountSpan with _ | ⟨s, e⟩
    · rfl
    · rw [currencyStrat1]
      apply List.eq_nil_iff_forall_not_mem.mpr
      intro c hc
      simp only [List.mem_map, List.mem_filter] at hc
      obtain ⟨code, ⟨hmem, hsub⟩, _⟩ := hc
      rw [upperL_slice] at hsub
      have := isSubstr_slice hsub
      rw [hcode code hmem] at this
      exact Bool.false_ne_true this
  have h2 : currencyStrat2 text (upperL text) = [] := by
    apply List.eq_nil_iff_forall_not_mem.mpr
    intro c hc
    simp only [currencyStrat2, List.mem_flatMap, List.mem_map,
      List.mem_filter] at hc
    obtain ⟨kw, _, pos, _, code, ⟨hmem, hsub⟩, _⟩ := hc
    have := isSubstr_slice hsub
    rw [hcode code hmem] at this
    exact Bool.false_ne_true this
  have h3 : currencyStratCad text (upperL text) = [] := by
    rw [currencyStratCad]
    have hi : canadianIndicators.any (fun t => isSubstr t (upperL text)) = false := by
      rw [List.any_eq_false]
      intro t ht
      rw [hind t ht]
      exact Bool.false_ne_true
    have hp : canadianProvinces.any (fun t => isSubstr t (upperL text)) = false := by
      rw [List.any_eq_false]
      intro t ht
      rw [hprov t ht]
      exact Bool.false_ne_true
    rw [hi, hp]
    rfl
  have h4 : currencyStrat4 text = [] := by
    rw [currencyStrat4, hc1, hc2]
    rfl
  have h5 : currencyStrat5 text = [] := by
    simp only [currencyStrat5, List.flatMap_cons, List.flatMap_nil]
    rw [heuro, hgbp, hyen]
    rfl
  have hall : currencyCandidates text amountSpan = [] := by
    rw [currencyCandidates, h1, h2, h3, h4, h5]
    rfl
  refine ⟨hall, ?_⟩
  rw [extractCurrency, hall]
  rfl

/--
C7 witness: `"Total: $ 12.50"` has a bare `$`, no currency code, no Canadian
indicator and no other symbol, and `extract_currency`'s candidate list is
empty so its selection yields null.
-/
theorem C7_bare_dollar_witness :
    currencyCandidates ("Total: $ 12.50".toList) none = [] ∧
      extractCurrency ("Total: $ 12.50".toList) none = none :=
  C7_bare_dollar_no_currency ("Total: $ 12.50".toList) none (by decide)
    (by decide) (by decide) (by decide) (by decide) (by decide) (by decide)
    (by decide) (by decide)

/-! ## Keyword binding of the `extract_vendor` → `select_best_vendor` call -/

/-- Python keyword-argument binding for a function without `**kwargs`: a
call binds exactly when every keyword name is a declared parameter name
(otherwise the call raises `TypeError`). -/
def callBindsKeywords (params : List Str) (kwargs : List Str) : Bool :=
  kwargs.all (fun k => params.contains k)

/-- The parameter list of `select_best_vendor` in `app/utils/scoring.py`
(one positional parameter, no `**kwargs`). -/
def select_best_vendor_params : List Str :=
  ["candidates"].map String.toList

/-- The keyword arguments `extract_vendor` passes to `select_best_vendor`
in `app/services/parser.py`. -/
def extract_vendor_call_kwargs : List Str :=
  ["is_forwarded", "context", "return_score"].map String.toList

/-- The exception classes caught by `extract_vendor`'s handler
(`except (re.error, AttributeError, IndexError)`); `parse()` itself has no
try/except around its pipeline. -/
def extract_vendor_caught_exceptions : List Str :=
  ["re.error", "AttributeError", "IndexError"].map String.toList

/--
C1: the `select_best_vendor(candidates, is_forwarded=..., context=...,
return_score=True)` call inside `extract_vendor` does not bind against
`select_best_vendor`'s signature (`candidates` only, no `**kwargs`), so
every `parse()` invocation raises `TypeError` at vendor extraction; and
`TypeError` is not among the exceptions `extract_vendor` catches, so the
exception escapes `parse()`, contradicting the claim that no exception
escapes for any input.
-/
theorem C1_vendor_call_does_not_bind :
    callBindsKeywords select_best_vendor_params extract_vendor_call_kwargs
        = false ∧
      extract_vendor_caught_exceptions.contains ("TypeError".toList)
        = false := by
  decide

/-! ## `ReceiptParser._normalize_ocr_spaces` (`app/services/parser.py`) -/

/-- One pass of `re.sub(r'\s\x7b2,\x7d', ' ', s)`: each run of two or more
whitespace characters becomes a single space; a lone whitespace character is
left as it is. -/
def collapseWsGo : ℕ → Str → Str
  | _, [] => []
  | 0, s => s
  | fuel + 1, c :: rest =>
    if isWs c then
      if (rest.takeWhile (isWs ·)).isEmpty then c :: collapseWsGo fuel rest
      else ' ' :: collapseWsGo fuel (rest.drop (rest.takeWhile (isWs ·)).length)
    else c :: collapseWsGo fuel rest

def collapseWs (s : Str) : Str := collapseWsGo s.length s

/-- The lookahead `(?=[A-Za-z]\b)` of the aggressive single-letter joiner: a
letter that is itself a one-character word. -/
def sub1Look : Str → Bool
  | [] => false
  | d :: rest2 =>
    isAsciiAlpha d &&
      (match rest2.head? with
       | some e => !isWordChar e
       | none => true)

/-- The lookahead `(?=[A-Za-z](\s+|$))` of the conservative joiner: a letter
followed by whitespace or the end of the string. -/
def sub2Look : Str → Bool
  | [] => false
  | d :: rest2 =>
    isAsciiAlpha d &&
      (match rest2.head? with
       | some e => isWs e
       | none => true)

/-- One `re.sub` pass of `\b([A-Za-z])\s+` followed by the given lookahead,
replaced by the captured letter.  `prevW` records whether the character just
before the current scan position is a word character (so `\b` holds before a
letter exactly when `prevW` is false); after a replacement, scanning resumes
at the lookahead letter, whose preceding character is whitespace. -/
def subGo (look : Str → Bool) : ℕ → Bool → Str → Str
  | _, _, [] => []
  | 0, _, s => s
  | fuel + 1, prevW, c :: rest =>
    if isAsciiAlpha c && !prevW && !(rest.takeWhile (isWs ·)).isEmpty &&
        look (rest.drop (rest.takeWhile (isWs ·)).length) then
      c :: subGo look fuel false (rest.drop (rest.takeWhile (isWs ·)).length)
    else c :: subGo look fuel (isWordChar c) rest

/-- `re.sub(r'\b([A-Za-z])\s+(?=[A-Za-z]\b)', r'\1', s)`. -/
def sub1 (s : Str) : Str := subGo sub1Look s.length false s

/-- `re.sub(r'\b([A-Za-z])\s+(?=[A-Za-z](\s+|$))', r'\1', s)`. -/
def sub2 (s : Str) : Str := subGo sub2Look s.length false s

/-- `[A-Za-z](\s+[A-Za-z])^(n-1)` anchored at the current position (the
`\s+` is effectively possessive because the next atom is a letter). -/
def chainAt : ℕ → Str → Bool
  | 0, _ => true
  | 1, s =>
    match s.head? with
    | some c => isAsciiAlpha c
    | none => false
  | k + 2, s =>
    match s with
    | [] => false
    | c :: rest =>
      isAsciiAlpha c && !(rest.takeWhile (isWs ·)).isEmpty &&
        chainAt (k + 1) (rest.drop (rest.takeWhile (isWs ·)).length)

/-- `re.search` of `n` letters separated by whitespace runs. -/
def hasChain (n : ℕ) (s : Str) : Bool := searchBool (chainAt n) s

/-- The while-loop that applies `sub2` until a fixed point; each changing
pass strictly shortens the string, so length-plus-one passes suffice. -/
def fixSub2 : ℕ → Str → Str
  | 0, s => s
  | fuel + 1, s => if sub2 s = s then s else fixSub2 fuel (sub2 s)

/--
`_normalize_ocr_spaces`.  The float comparisons `space_ratio > 0.45` and
`> 0.35` are modelled exactly by `20*spaces > 9*len` and `> 7*len`: with a
sample of at most 500 characters the rational `spaces/len` is at least
`1/10000` away from `9/20` and `7/20` whenever it differs from them, far
beyond double rounding error, and at equality both sides round to the same
double so the strict comparison is false either way.
-/
def normalizeOcrSpaces (text : Str) : Str :=
  let sample := text.take 500
  let spaces := (sample.filter (fun c => c = ' ')).length
  if 0 < sample.length ∧ 9 * sample.length < 20 * spaces then
    collapseWs (sub1 text)
  else if 0 < sample.length ∧ 7 * sample.length < 20 * spaces then
    let t1 := collapseWs text
    if hasChain 3 t1 then sub1 t1 else t1
  else if hasChain 5 text then fixSub2 (text.length + 1) text
  else text

theorem subGo_length_le (look : Str → Bool) :
    ∀ (fuel : ℕ) (b : Bool) (s : Str), (subGo look fuel b s).length ≤ s.length := by
  intro fuel
  induction fuel with
  | zero => intro b s; cases s <;> simp [subGo]
  | succ n ih =>
    intro b s
    cases s with
    | nil => simp [subGo]
    | cons c rest =>
      rw [subGo]
      split
      · simp only [List.length_cons]
        have h1 := ih false (rest.drop (rest.takeWhile (isWs ·)).length)
        have h2 : (rest.drop (rest.takeWhile (isWs ·)).length).length ≤ rest.length := by
          rw [List.length_drop]
          omega
        omega
      · simp only [List.length_cons]
        have h1 := ih (isWordChar c) rest
        omega

theorem subGo_eq_or_lt (look : Str → Bool) :
    ∀ (fuel : ℕ) (b : Bool) (s : Str),
      subGo look fuel b s = s ∨ (subGo look fuel b s).length < s.length := by
  intro fuel
  induction fuel with
  | zero => intro b s; cases s <;> simp [subGo]
  | succ n ih =>
    intro b s
    cases s with
    | nil => simp [subGo]
    | cons c rest =>
      rw [subGo]
      split
      · rename_i hcond
        right
        simp only [List.length_cons]
        have hne : ¬ (rest.takeWhile (isWs ·)).isEmpty = true := by
          intro he
          simp [he] at hcond
        have hpos : 0 < (rest.takeWhile (isWs ·)).length := by
          cases hw : rest.takeWhile (isWs ·) with
          | nil => rw [hw] at hne; simp at hne
          | cons a l => simp [hw]
        have hlen : (rest.takeWhile (isWs ·)).length ≤ rest.length :=
          List.Sublist.length_le (List.takeWhile_sublist _)
        have h1 := subGo_length_le look n false (rest.drop (rest.takeWhile (isWs ·)).length)
        rw [List.length_drop] at h1
        omega
      · rcases ih (isWordChar c) rest with he | hl
        · left
          rw [he]
        · right
          simp only [List.length_cons]
          omega

theorem sub2_eq_or_lt (s : Str) : sub2 s = s ∨ (sub2 s).length < s.length :=
  subGo_eq_or_lt sub2Look s.length false s

theorem fixSub2_of_fixpoint {s : Str} (h : sub2 s = s) :
    ∀ fuel, fixSub2 fuel s = s := by
  intro fuel
  cases fuel with
  | zero => rfl
  | succ n =>
    rw [fixSub2, if_pos h]

theorem fixSub2_reaches_fixpoint :
    ∀ (fuel : ℕ) (s : Str), s.length < fuel →
      sub2 (fixSub2 fuel s) = fixSub2 fuel s := by
  intro fuel
  induction fuel with
  | zero => intro s h; omega
  | succ n ih =>
    intro s h
    rw [fixSub2]
    split
    · rename_i he
      exact he
    · rename_i hne
      apply ih
      rcases sub2_eq_or_lt s with he | hl
      · exact absurd he hne
      · omega

/-- The negation of the elif guard of `_normalize_ocr_spaces`: the space
ratio of the 500-character sample is not above 0.35 (this also rules out
the 0.45 branch). -/
def lowSpaceRatio (s : Str) : Prop :=
  ¬ (0 < (s.take 500).length ∧
      7 * (s.take 500).length <
        20 * ((s.take 500).filter (fun c => c = ' ')).length)

instance (s : Str) : Decidable (lowSpaceRatio s) := by
  unfold lowSpaceRatio
  infer_instance

theorem normalize_low_ratio {x : Str} (h : lowSpaceRatio x) :
    normalizeOcrSpaces x =
      if hasChain 5 x then fixSub2 (x.length + 1) x else x := by
  have hb1 : ¬ (0 < (x.take 500).length ∧
      9 * (x.take 500).length <
        20 * ((x.take 500).filter (fun c => c = ' ')).length) := by
    intro hc
    exact h ⟨hc.1, by omega⟩
  simp only [normalizeOcrSpaces]
  rw [if_neg hb1, if_neg h]

/--
C5 (amended): `_normalize_ocr_spaces` is idempotent on inputs whose
500-character sample keeps a space ratio of at most 0.35 both before and
after the first pass: there the function is the `sub2` while-loop run to a
fixed point (or the identity), so a second pass changes nothing.  The claim
is false in general: across the ratio thresholds the branches differ, as
the counterexample shows.
-/
theorem C5_normalize_idempotent_low_ratio (x : Str)
    (h1 : lowSpaceRatio x) (h2 : lowSpaceRatio (normalizeOcrSpaces x)) :
    normalizeOcrSpaces (normalizeOcrSpaces x) = normalizeOcrSpaces x := by
  rw [normalize_low_ratio h2]
  by_cases hc : hasChain 5 x = true
  · have hxx : normalizeOcrSpaces x = fixSub2 (x.length + 1) x := by
      rw [normalize_low_ratio h1, if_pos hc]
    have hfix : sub2 (normalizeOcrSpaces x) = normalizeOcrSpaces x := by
      rw [hxx]
      exact fixSub2_reaches_fixpoint _ _ (by omega)
    split
    · exact fixSub2_of_fixpoint hfix _
    · rfl
  · have hxx : normalizeOcrSpaces x = x := by
      rw [normalize_low_ratio h1, if_neg hc]
    rw [hxx, if_neg hc]

/-- The concrete input of the C5 counterexample: ratio 11/30 takes the
0.35-branch, whose collapse of the two `\n\n` runs raises the ratio of the
output to 13/28 > 0.45, so the second pass takes the aggressive branch and
joins `a b` to `ab`. -/
def c5Input : Str :=
  "a b, 1 1 1 1 1 1 1 1 1 11\n\n1\n\n".toList

/--
C5 counterexample: `_normalize_ocr_spaces` is not idempotent — on
`c5Input` the first pass only collapses whitespace runs, but that pushes
the space ratio of the output over 0.45, and the second pass then removes
the space of `a b`; the normalized text is not a fixed point.
-/
theorem C5_normalize_not_idempotent :
    normalizeOcrSpaces (normalizeOcrSpaces c5Input) ≠
      normalizeOcrSpaces c5Input := by
  decide

/--
C5 witness: on `"abc def"` the ratio stays at 1/7 across both passes, so
normalization is a fixed point there.
-/
theorem C5_normalize_idempotent_witness :
    normalizeOcrSpaces (normalizeOcrSpaces ("abc def".toList)) =
      normalizeOcrSpaces ("abc def".toList) :=
  C5_normalize_idempotent_low_ratio ("abc def".toList) (by decide) (by decide)

end AutoExpense
